import Mathlib

/-!
Verification of the chunked field-operations engine (`fieldoperations.py`).

The Python code is shallowly embedded: numpy matrices become total functions
`Nat → Nat → ℚ` together with an explicit shape, Python lists become `List`,
the worker pool's in-order parallel map becomes `List.map`, and Python
exceptions become an explicit `Except PyError` result.  Field objects are an
abstract type `F`; the pluggable `load_field` and `inner_product` callables are
explicit function parameters.  `util.py` is not part of the sources; the few
members of it that the engine uses are modelled from the spec and marked as
such in their doc comments.
-/

/-- Python `range(start, stop, step)` for a positive step: the list of visited
indices, `ceil((stop - start) / step)` many, starting at `start`. -/
def rangeStep (start stop step : Nat) : List Nat :=
  List.range' start ((stop - start + step - 1) / step) step

/-- One numpy matrix-entry assignment `mat[r, c] = x` on a matrix represented
as a total function. -/
def setEntry (m : Nat → Nat → ℚ) (r c : Nat) (x : ℚ) : Nat → Nat → ℚ :=
  fun i j => if i = r ∧ j = c then x else m i j

/-- A dense rational matrix with an explicit shape; entries are a total
function (out-of-shape entries are irrelevant). -/
structure Mat where
  rows : Nat
  cols : Nat
  entry : Nat → Nat → ℚ

/-- numpy `.T`. -/
def Mat.transpose (m : Mat) : Mat :=
  Mat.mk m.cols m.rows (fun i j => m.entry j i)

/-- numpy column slice `m[:, a:b]`. -/
def Mat.colSlice (m : Mat) (a b : Nat) : Mat :=
  Mat.mk m.rows (min m.cols b - min m.cols a) (fun i j => m.entry i (a + j))

/-- The kinds of Python exceptions the embedded code can raise, with their
messages. -/
inductive PyError where
  | valueError : String → PyError
  | runtimeError : String → PyError
  | undefinedError : String → PyError
  | nameError : String → PyError
  | assertionError : PyError
  deriving DecidableEq

/-- Modelled from the spec: `util.find_numRows_numCols_per_chunk` is not under
`src/` (only its caller is).  Spec section 4.1 (ChunkSizer): a memory budget B
maps to a pair (rowsPerChunk, colsPerChunk) with
`rowsPerChunk * 1 + colsPerChunk <= B` approximately, favoring a larger column
chunk; the degenerate budget B = 1 gives (1, 1). -/
def find_numRows_numCols_per_chunk (maxFields : Nat) : Nat × Nat :=
  (1, max (maxFields - 1) 1)

section InnerProductEngine

variable {H F : Type} [Inhabited H] [Inhabited F] [DecidableEq H]

/-- The chunked double loop of `FieldOperations._compute_inner_product_chunk`
(fieldoperations.py lines 213-262): iterate row chunks, load the row snapshot
batch, iterate column chunks, load the column batch, and write every
`inner_product(rowSnap, colSnap)` of the block into the matrix, which starts
as `N.zeros((numRows, numCols))`. -/
def innerProductLoops (ip : F → F → ℚ) (load : H → F)
    (rowFieldPaths colFieldPaths : List H)
    (numRowsPerChunk numColsPerChunk : Nat) : Nat → Nat → ℚ :=
  let numRows := rowFieldPaths.length
  let numCols := colFieldPaths.length
  (rangeStep 0 numRows numRowsPerChunk).foldl (fun mat startRowIndex =>
    let endRowIndex := min numRows (startRowIndex + numRowsPerChunk)
    let rowSnaps := ((rowFieldPaths.drop startRowIndex).take
      (endRowIndex - startRowIndex)).map load
    (rangeStep 0 numCols numColsPerChunk).foldl (fun mat startColIndex =>
      let endColIndex := min numCols (startColIndex + numColsPerChunk)
      let colSnaps := ((colFieldPaths.drop startColIndex).take
        (endColIndex - startColIndex)).map load
      (List.range' startRowIndex (endRowIndex - startRowIndex)).foldl
        (fun mat rowIndex =>
          (List.range' startColIndex (endColIndex - startColIndex)).foldl
            (fun mat colIndex =>
              setEntry mat rowIndex colIndex
                (ip (rowSnaps.getD (rowIndex - startRowIndex) default)
                    (colSnaps.getD (colIndex - startColIndex) default)))
            mat)
        mat)
      mat)
    (fun _ _ => 0)

/-- `FieldOperations._compute_inner_product_chunk` (lines 170-269): if there
are more rows than columns, swap the two path lists, run the chunked loops,
and transpose the result back. -/
def _compute_inner_product_chunk (ip : F → F → ℚ) (load : H → F)
    (rowFieldPaths colFieldPaths : List H) (maxFields : Nat) : Mat :=
  let numRows := rowFieldPaths.length
  let numCols := colFieldPaths.length
  let nrc := find_numRows_numCols_per_chunk maxFields
  if numRows > numCols then
    (Mat.mk numCols numRows
      (innerProductLoops ip load colFieldPaths rowFieldPaths nrc.1 nrc.2)).transpose
  else
    Mat.mk numRows numCols
      (innerProductLoops ip load rowFieldPaths colFieldPaths nrc.1 nrc.2)

/-- `FieldOperations.compute_inner_product_mat` (lines 115-166): the same
swap-and-transpose orientation step around `_compute_inner_product_chunk`. -/
def compute_inner_product_mat (ip : F → F → ℚ) (load : H → F)
    (rowFieldPaths colFieldPaths : List H) (maxFields : Nat) : Mat :=
  if rowFieldPaths.length > colFieldPaths.length then
    (_compute_inner_product_chunk ip load colFieldPaths rowFieldPaths
      maxFields).transpose
  else
    _compute_inner_product_chunk ip load rowFieldPaths colFieldPaths maxFields

/-- The chunked loops of
`FieldOperations._compute_upper_triangular_inner_product_chunk`
(lines 355-417): per row chunk, the diagonal and the strictly-upper entries
whose columns lie inside the chunk are computed from the resident row batch;
columns beyond the chunk are then streamed in column batches. -/
def upperTriangularLoops (ip : F → F → ℚ) (load : H → F)
    (rowFieldPaths colFieldPaths : List H)
    (numRowsPerChunk numColsPerChunk : Nat) : Nat → Nat → ℚ :=
  let numRows := rowFieldPaths.length
  let numCols := colFieldPaths.length
  (rangeStep 0 numRows numRowsPerChunk).foldl (fun mat startRowIndex =>
    let endRowIndex := min numRows (startRowIndex + numRowsPerChunk)
    let rowFields := ((rowFieldPaths.drop startRowIndex).take
      (endRowIndex - startRowIndex)).map load
    let mat := (List.range' startRowIndex (endRowIndex - startRowIndex)).foldl
      (fun mat rowIndex =>
        let mat := setEntry mat rowIndex rowIndex
          (ip (rowFields.getD (rowIndex - startRowIndex) default)
              (rowFields.getD (rowIndex - startRowIndex) default))
        (List.range' (rowIndex + 1) (endRowIndex - (rowIndex + 1))).foldl
          (fun mat colIndex =>
            setEntry mat rowIndex colIndex
              (ip (rowFields.getD (rowIndex - startRowIndex) default)
                  (rowFields.getD (colIndex - startRowIndex) default)))
          mat)
      mat
    if numColsPerChunk ≠ 0 then
      (rangeStep endRowIndex numCols numColsPerChunk).foldl
        (fun mat startColIndex =>
          let endColIndex := min numCols (startColIndex + numColsPerChunk)
          let colFields := ((colFieldPaths.drop startColIndex).take
            (endColIndex - startColIndex)).map load
          (List.range' startRowIndex (endRowIndex - startRowIndex)).foldl
            (fun mat rowIndex =>
              (List.range' startColIndex (endColIndex - startColIndex)).foldl
                (fun mat colIndex =>
                  setEntry mat rowIndex colIndex
                    (ip (rowFields.getD (rowIndex - startRowIndex) default)
                        (colFields.getD (colIndex - startColIndex) default)))
                mat)
            mat)
        mat
    else mat)
    (fun _ _ => 0)

/-- `FieldOperations._compute_upper_triangular_inner_product_chunk`
(lines 302-419): the row paths must be a leading prefix of the column paths,
otherwise a `ValueError`. -/
def _compute_upper_triangular_inner_product_chunk (ip : F → F → ℚ)
    (load : H → F) (rowFieldPaths colFieldPaths : List H) (maxFields : Nat) :
    Except PyError Mat :=
  let numRows := rowFieldPaths.length
  let numCols := colFieldPaths.length
  if rowFieldPaths ≠ colFieldPaths.take numRows then
    Except.error (PyError.valueError ("rowFieldPaths and colFieldPaths must share same leading entries for a symmetric inner product matrix chunk."))
  else
    let nrc := find_numRows_numCols_per_chunk maxFields
    Except.ok (Mat.mk numRows numCols
      (upperTriangularLoops ip load rowFieldPaths colFieldPaths nrc.1 nrc.2))

/-- `FieldOperations.compute_symmetric_inner_product_mat` (lines 272-299):
compute the upper-triangular chunk for the one path list, then symmetrize with
`innerProductMat += N.triu(innerProductMat, 1).T`. -/
def compute_symmetric_inner_product_mat (ip : F → F → ℚ) (load : H → F)
    (fieldPaths : List H) (maxFields : Nat) : Except PyError Mat :=
  match _compute_upper_triangular_inner_product_chunk ip load fieldPaths
      fieldPaths maxFields with
  | Except.error e => Except.error e
  | Except.ok chunk =>
    Except.ok (Mat.mk chunk.rows chunk.cols
      (fun i j => chunk.entry i j + (if j + 1 ≤ i then chunk.entry j i else 0)))

end InnerProductEngine

section FoldWrite

/-- If no element of the fold list writes the cell `(i, j)`, the fold leaves
that cell unchanged. -/
theorem foldl_write_of_forall_not {β : Type} (L : List β)
    (f : (Nat → Nat → ℚ) → β → Nat → Nat → ℚ) (C : β → Prop) (i j : Nat)
    (hskip : ∀ m b, b ∈ L → ¬ C b → f m b i j = m i j)
    (hC : ∀ b ∈ L, ¬ C b) (m0 : Nat → Nat → ℚ) :
    L.foldl f m0 i j = m0 i j := by
  induction L generalizing m0 with
  | nil => rfl
  | cons b t ih =>
    have hb : ¬ C b := hC b (List.mem_cons_self b t)
    have h1 : f m0 b i j = m0 i j := hskip m0 b (List.mem_cons_self b t) hb
    have := ih (fun m b hb => hskip m b (List.mem_cons_of_mem _ hb))
      (fun b hb => hC b (List.mem_cons_of_mem _ hb)) (f m0 b)
    simpa [this] using h1

/-- If every writing element writes the same value `v` into cell `(i, j)` and
some element of the fold list does write it, the fold ends with `v` there. -/
theorem foldl_write_of_exists {β : Type} (L : List β)
    (f : (Nat → Nat → ℚ) → β → Nat → Nat → ℚ) (C : β → Prop) (v : ℚ)
    (i j : Nat)
    (hwrite : ∀ m b, b ∈ L → C b → f m b i j = v)
    (hskip : ∀ m b, b ∈ L → ¬ C b → f m b i j = m i j)
    (hex : ∃ b ∈ L, C b) (m0 : Nat → Nat → ℚ) :
    L.foldl f m0 i j = v := by
  induction L generalizing m0 with
  | nil => exact absurd hex (by simp)
  | cons b t ih =>
    by_cases ht : ∃ b ∈ t, C b
    · exact ih (fun m b hb => hwrite m b (List.mem_cons_of_mem _ hb))
        (fun m b hb => hskip m b (List.mem_cons_of_mem _ hb)) ht (f m0 b)
    · have hb : C b := by
        rcases hex with ⟨b', hb', hCb'⟩
        rcases List.mem_cons.1 hb' with h | h
        · exact h ▸ hCb'
        · exact absurd ⟨b', h, hCb'⟩ ht
      have h1 : f m0 b i j = v := hwrite m0 b (List.mem_cons_self b t) hb
      have h2 := foldl_write_of_forall_not t f C i j
        (fun m b hb => hskip m b (List.mem_cons_of_mem _ hb))
        (fun b hb => by
          intro hCb; exact ht ⟨b, hb, hCb⟩) (f m0 b)
      simpa [h2] using h1

end FoldWrite

section RangeStep

/-- Elements of `rangeStep a n k` lie in `[a, n)` and are offsets of multiples
of `k`. -/
theorem mem_rangeStep {a n k s : Nat} (hk : 0 < k) (hs : s ∈ rangeStep a n k) :
    a ≤ s ∧ s < n := by
  rcases List.mem_range'.1 hs with ⟨q, hq, rfl⟩
  have h1 : ((n - a + k - 1) / k) * k ≤ n - a + k - 1 := Nat.div_mul_le_self _ _
  have h2 : (q + 1) * k ≤ ((n - a + k - 1) / k) * k :=
    Nat.mul_le_mul_right k hq
  have h3 : (q + 1) * k = q * k + k := by ring
  have h4 : k * q = q * k := Nat.mul_comm k q
  exact ⟨by omega, by omega⟩

/-- Every point of `[a, n)` is covered by exactly the chunk of `rangeStep`
that contains it. -/
theorem rangeStep_exists {a n k x : Nat} (hk : 0 < k) (hax : a ≤ x)
    (hxn : x < n) : ∃ s ∈ rangeStep a n k, s ≤ x ∧ x < min n (s + k) := by
  refine ⟨a + k * ((x - a) / k), ?_, ?_, ?_⟩
  · refine List.mem_range'.2 ⟨(x - a) / k, ?_, rfl⟩
    have h1 : (x - a) / k ≤ (n - a - 1) / k := Nat.div_le_div_right (by omega)
    have h2 : (n - a + k - 1) / k = (n - a - 1) / k + 1 := by
      have : n - a + k - 1 = (n - a - 1) + k := by omega
      rw [this, Nat.add_div_right _ hk]
    omega
  · have := Nat.div_mul_le_self (x - a) k
    have : k * ((x - a) / k) ≤ x - a := by
      rw [Nat.mul_comm]; exact Nat.div_mul_le_self (x - a) k
    omega
  · have hdm := Nat.div_add_mod (x - a) k
    have hm := Nat.mod_lt (x - a) hk
    omega

end RangeStep

section SliceLemma

/-- Reading back an element of a loaded chunk
`map g ((l.drop s).take (e - s))` at offset `x - s` gives `g` of the
`x`-th element of the full list. -/
theorem getD_slice_map {α β : Type} [Inhabited β] (g : α → β) (l : List α)
    (s e x : Nat) (hsx : s ≤ x) (hxe : x < e) (hel : e ≤ l.length) (d : α) :
    (((l.drop s).take (e - s)).map g).getD (x - s) default = g (l.getD x d) := by
  have hxl : x < l.length := lt_of_lt_of_le hxe hel
  have hlen : (((l.drop s).take (e - s)).map g).length = e - s := by
    rw [List.length_map, List.length_take, List.length_drop]
    omega
  have hx : x - s < (((l.drop s).take (e - s)).map g).length := by omega
  rw [List.getD_eq_getElem _ _ hx, List.getD_eq_getElem _ _ hxl]
  rw [List.getElem_map, List.getElem_take, List.getElem_drop]
  have hidx : s + (x - s) = x := by omega
  simp only [hidx]

end SliceLemma

section FoldSkip

/-- A row of writes at row `r` leaves cells outside it unchanged. -/
theorem foldl_setEntry_skip (L : List Nat) (r : Nat) (w : Nat → ℚ)
    (i j : Nat) (h : ∀ c ∈ L, ¬(i = r ∧ j = c)) (m : Nat → Nat → ℚ) :
    L.foldl (fun mat c => setEntry mat r c (w c)) m i j = m i j :=
  foldl_write_of_forall_not L _ (fun _ => False) i j
    (fun m c hc _ => by simp only [setEntry, if_neg (h c hc)])
    (fun _ _ => not_false) m

/-- A rectangular block of writes leaves cells outside the block unchanged. -/
theorem foldl_block_skip (RL : List Nat) (CL : Nat → List Nat)
    (w : Nat → Nat → ℚ) (i j : Nat)
    (h : ∀ r ∈ RL, ∀ c ∈ CL r, ¬(i = r ∧ j = c)) (m : Nat → Nat → ℚ) :
    RL.foldl (fun mat r =>
      (CL r).foldl (fun mat c => setEntry mat r c (w r c)) mat) m i j
      = m i j :=
  foldl_write_of_forall_not RL _ (fun _ => False) i j
    (fun m r hr _ => foldl_setEntry_skip (CL r) r (w r) i j (h r hr) m)
    (fun _ _ => not_false) m

end FoldSkip

/-- Every in-shape entry of the chunked rectangular loops is the inner product
of the corresponding loaded row and column fields, whatever positive chunk
sizes are used. -/
theorem innerProductLoops_entry {H F : Type} [Inhabited H] [Inhabited F]
    (ip : F → F → ℚ) (load : H → F) (rows cols : List H)
    (nRPC nCPC : Nat) (hrp : 0 < nRPC) (hcp : 0 < nCPC)
    (i j : Nat) (hi : i < rows.length) (hj : j < cols.length) :
    innerProductLoops ip load rows cols nRPC nCPC i j
      = ip (load (rows.getD i default)) (load (cols.getD j default)) := by
  simp only [innerProductLoops]
  refine foldl_write_of_exists _ _
    (fun s => s ≤ i ∧ i < min rows.length (s + nRPC)) _ i j ?_ ?_
    (rangeStep_exists hrp (Nat.zero_le i) hi) _
  · intro m s _ hC
    dsimp only
    refine foldl_write_of_exists _ _
      (fun sc => sc ≤ j ∧ j < min cols.length (sc + nCPC)) _ i j ?_ ?_
      (rangeStep_exists hcp (Nat.zero_le j) hj) _
    · intro m' sc _ hC'
      dsimp only
      refine foldl_write_of_exists _ _ (fun r => r = i) _ i j ?_ ?_
        ⟨i, List.mem_range'_1.2 ⟨hC.1, by omega⟩, rfl⟩ _
      · intro m2 r _ hri
        subst hri
        refine foldl_write_of_exists _ _ (fun c => c = j) _ r j ?_ ?_
          ⟨j, List.mem_range'_1.2 ⟨hC'.1, by omega⟩, rfl⟩ _
        · intro m3 c _ hcj
          subst hcj
          show setEntry m3 r c _ r c = _
          simp only [setEntry, and_self, if_true]
          rw [getD_slice_map load rows s (min rows.length (s + nRPC)) r hC.1 hC.2
                (Nat.min_le_left _ _) default,
              getD_slice_map load cols sc (min cols.length (sc + nCPC)) c hC'.1 hC'.2
                (Nat.min_le_left _ _) default]
        · intro m3 c _ hcj
          show setEntry m3 r c _ r j = m3 r j
          simp only [setEntry]
          rw [if_neg]
          rintro ⟨-, h⟩
          exact hcj h.symm
      · intro m2 r _ hri
        exact foldl_setEntry_skip _ r _ i j
          (fun c _ => by rintro ⟨h, -⟩; exact hri h.symm) m2
    · intro m' sc _ hC'
      dsimp only
      refine foldl_block_skip _ _ _ i j ?_ m'
      intro r _ c hcmem
      rintro ⟨-, rfl⟩
      have := List.mem_range'_1.1 hcmem
      exact hC' ⟨by omega, by omega⟩
  · intro m s _ hC
    dsimp only
    refine foldl_write_of_forall_not _ _ (fun _ => False) i j ?_
      (fun _ _ => not_false) m
    intro m' sc _ _
    dsimp only
    refine foldl_block_skip _ _ _ i j ?_ m'
    intro r hrmem c _
    rintro ⟨rfl, -⟩
    have := List.mem_range'_1.1 hrmem
    exact hC ⟨by omega, by omega⟩

/-- Shape and entries of `compute_inner_product_mat`: the shape always follows
the caller's (row, col) argument order, while an entry is the inner product of
the row and column fields in that order on the no-swap path, and in the
reversed order on the swap-and-transpose path. -/
theorem compute_inner_product_mat_spec {H F : Type} [Inhabited H] [Inhabited F]
    (ip : F → F → ℚ) (load : H → F) (R C : List H) (maxFields : Nat) :
    (compute_inner_product_mat ip load R C maxFields).rows = R.length ∧
    (compute_inner_product_mat ip load R C maxFields).cols = C.length ∧
    ∀ i j, i < R.length → j < C.length →
      (compute_inner_product_mat ip load R C maxFields).entry i j
        = if C.length < R.length
          then ip (load (C.getD j default)) (load (R.getD i default))
          else ip (load (R.getD i default)) (load (C.getD j default)) := by
  have hrp : 0 < (find_numRows_numCols_per_chunk maxFields).1 := Nat.one_pos
  have hcp : 0 < (find_numRows_numCols_per_chunk maxFields).2 :=
    Nat.lt_of_lt_of_le Nat.one_pos (le_max_right _ _)
  unfold compute_inner_product_mat _compute_inner_product_chunk
  by_cases h : C.length < R.length
  · rw [if_pos h, if_neg (by omega)]
    refine ⟨rfl, rfl, fun i j hi hj => ?_⟩
    rw [if_pos h]
    exact innerProductLoops_entry ip load C R _ _ hrp hcp j i hj hi
  · rw [if_neg (by omega), if_neg (by omega)]
    refine ⟨rfl, rfl, fun i j hi hj => ?_⟩
    rw [if_neg h]
    exact innerProductLoops_entry ip load R C _ _ hrp hcp i j hi hj

/-- The strictly-lower part of the upper-triangular chunk is never written:
it keeps the initial zeros. -/
theorem upperTriangularLoops_lower {H F : Type} [Inhabited H] [Inhabited F]
    (ip : F → F → ℚ) (load : H → F) (paths : List H)
    (nRPC nCPC : Nat) (i j : Nat) (hji : j < i) :
    upperTriangularLoops ip load paths paths nRPC nCPC i j = 0 := by
  simp only [upperTriangularLoops]
  refine foldl_write_of_forall_not _ _ (fun _ => False) i j ?_
    (fun _ _ => not_false) _
  intro m s _ _
  dsimp only
  have hA : ∀ (m' : Nat → Nat → ℚ),
      (List.range' s (min paths.length (s + nRPC) - s)).foldl
        (fun mat rowIndex =>
          (List.range' (rowIndex + 1)
            (min paths.length (s + nRPC) - (rowIndex + 1))).foldl
            (fun mat colIndex =>
              setEntry mat rowIndex colIndex
                (ip (((paths.drop s).take (min paths.length (s + nRPC) - s)).map load |>.getD (rowIndex - s) default)
                    (((paths.drop s).take (min paths.length (s + nRPC) - s)).map load |>.getD (colIndex - s) default)))
            (setEntry mat rowIndex rowIndex
              (ip (((paths.drop s).take (min paths.length (s + nRPC) - s)).map load |>.getD (rowIndex - s) default)
                  (((paths.drop s).take (min paths.length (s + nRPC) - s)).map load |>.getD (rowIndex - s) default))))
        m' i j = m' i j := by
    intro m'
    refine foldl_write_of_forall_not _ _ (fun _ => False) i j ?_
      (fun _ _ => not_false) m'
    intro m2 r _ _
    dsimp only
    have hc : ∀ c ∈ List.range' (r + 1) (min paths.length (s + nRPC) - (r + 1)),
        ¬(i = r ∧ j = c) := by
      intro c hc
      have := List.mem_range'_1.1 hc
      rintro ⟨rfl, rfl⟩
      omega
    rw [foldl_setEntry_skip _ _ _ i j hc]
    simp only [setEntry]
    rw [if_neg]
    rintro ⟨rfl, rfl⟩
    omega
  split
  next hcp0 =>
    refine foldl_write_of_forall_not _ _ (fun _ => False) i j ?_
      (fun _ _ => not_false) _ |>.trans (hA m)
    intro m2 sc hsc _
    dsimp only
    have hscb := mem_rangeStep (Nat.pos_of_ne_zero hcp0) hsc
    refine foldl_block_skip _ _ _ i j ?_ m2
    intro r hr c hc
    have h1 := List.mem_range'_1.1 hr
    have h2 := List.mem_range'_1.1 hc
    rintro ⟨rfl, rfl⟩
    omega
  next hcp0 => exact hA m

/-- Every upper-triangle entry (diagonal included) of the upper-triangular
chunk loops is the inner product of the corresponding loaded fields, whatever
positive chunk sizes are used. -/
theorem upperTriangularLoops_entry {H F : Type} [Inhabited H] [Inhabited F]
    (ip : F → F → ℚ) (load : H → F) (paths : List H)
    (nRPC nCPC : Nat) (hrp : 0 < nRPC) (hcp : 0 < nCPC)
    (i j : Nat) (hij : i ≤ j) (hj : j < paths.length) :
    upperTriangularLoops ip load paths paths nRPC nCPC i j
      = ip (load (paths.getD i default)) (load (paths.getD j default)) := by
  have hi : i < paths.length := Nat.lt_of_le_of_lt hij hj
  simp only [upperTriangularLoops]
  refine foldl_write_of_exists _ _
    (fun s => s ≤ i ∧ i < min paths.length (s + nRPC)) _ i j ?_ ?_
    (rangeStep_exists hrp (Nat.zero_le i) hi) _
  · intro m s _ hC
    dsimp only
    rw [if_pos (Nat.pos_iff_ne_zero.1 hcp)]
    by_cases hje : j < min paths.length (s + nRPC)
    · -- j lies inside the resident square: part B never touches (i, j)
      have hB : ∀ m' : Nat → Nat → ℚ,
          (rangeStep (min paths.length (s + nRPC)) paths.length nCPC).foldl
            (fun mat startColIndex =>
              (List.range' s (min paths.length (s + nRPC) - s)).foldl
                (fun mat rowIndex =>
                  (List.range' startColIndex
                    (min paths.length (startColIndex + nCPC) - startColIndex)).foldl
                    (fun mat colIndex =>
                      setEntry mat rowIndex colIndex
                        (ip (((paths.drop s).take (min paths.length (s + nRPC) - s)).map load |>.getD (rowIndex - s) default)
                            (((paths.drop startColIndex).take (min paths.length (startColIndex + nCPC) - startColIndex)).map load |>.getD (colIndex - startColIndex) default)))
                    mat)
                mat)
            m' i j = m' i j := by
        intro m'
        refine foldl_write_of_forall_not _ _ (fun _ => False) i j ?_
          (fun _ _ => not_false) m'
        intro m2 sc hsc _
        dsimp only
        have hscb := mem_rangeStep hcp hsc
        refine foldl_block_skip _ _ _ i j ?_ m2
        intro r _ c hc
        have h2 := List.mem_range'_1.1 hc
        rintro ⟨-, rfl⟩
        omega
      refine (hB _).trans ?_
      refine foldl_write_of_exists _ _ (fun r => r = i) _ i j ?_ ?_
        ⟨i, List.mem_range'_1.2 ⟨hC.1, by omega⟩, rfl⟩ _
      · intro m2 r _ hri
        subst hri
        rcases Nat.lt_or_ge r j with hrj | hrj
        · -- strictly-upper entry written by the in-square column loop
          refine foldl_write_of_exists _ _ (fun c => c = j) _ r j ?_ ?_
            ⟨j, List.mem_range'_1.2 ⟨by omega, by omega⟩, rfl⟩ _
          · intro m3 c _ hcj
            subst hcj
            show setEntry m3 r c _ r c = _
            simp only [setEntry, and_self, if_true]
            rw [getD_slice_map load paths s (min paths.length (s + nRPC)) r hC.1 hC.2
                  (Nat.min_le_left _ _) default,
                getD_slice_map load paths s (min paths.length (s + nRPC)) c (by omega) hje
                  (Nat.min_le_left _ _) default]
          · intro m3 c _ hcj
            show setEntry m3 r c _ r j = m3 r j
            simp only [setEntry]
            rw [if_neg]
            rintro ⟨-, h⟩
            exact hcj h.symm
        · -- diagonal entry: here j = r
          have hjr : j = r := by omega
          subst hjr
          rw [foldl_setEntry_skip _ _ _ j j
            (by
              intro c hc
              have := List.mem_range'_1.1 hc
              rintro ⟨-, rfl⟩
              omega)]
          simp only [setEntry, and_self, if_true]
          rw [getD_slice_map load paths s (min paths.length (s + nRPC)) j hC.1 hC.2
                (Nat.min_le_left _ _) default]
      · intro m2 r _ hri
        dsimp only
        rw [foldl_setEntry_skip _ _ _ i j
          (by rintro c - ⟨h, -⟩; exact hri h.symm)]
        simp only [setEntry]
        rw [if_neg]
        rintro ⟨h, -⟩
        exact hri h.symm
    · -- j lies beyond the resident square: part B writes (i, j)
      refine foldl_write_of_exists _ _
        (fun sc => sc ≤ j ∧ j < min paths.length (sc + nCPC)) _ i j ?_ ?_
        (rangeStep_exists hcp (by omega) hj) _
      · intro m2 sc _ hCc
        dsimp only
        refine foldl_write_of_exists _ _ (fun r => r = i) _ i j ?_ ?_
          ⟨i, List.mem_range'_1.2 ⟨hC.1, by omega⟩, rfl⟩ _
        · intro m3 r _ hri
          subst hri
          refine foldl_write_of_exists _ _ (fun c => c = j) _ r j ?_ ?_
            ⟨j, List.mem_range'_1.2 ⟨hCc.1, by omega⟩, rfl⟩ _
          · intro m4 c _ hcj
            subst hcj
            show setEntry m4 r c _ r c = _
            simp only [setEntry, and_self, if_true]
            rw [getD_slice_map load paths s (min paths.length (s + nRPC)) r hC.1 hC.2
                  (Nat.min_le_left _ _) default,
                getD_slice_map load paths sc (min paths.length (sc + nCPC)) c hCc.1 hCc.2
                  (Nat.min_le_left _ _) default]
          · intro m4 c _ hcj
            show setEntry m4 r c _ r j = m4 r j
            simp only [setEntry]
            rw [if_neg]
            rintro ⟨-, h⟩
            exact hcj h.symm
        · intro m3 r _ hri
          exact foldl_setEntry_skip _ r _ i j
            (fun c _ => by rintro ⟨h, -⟩; exact hri h.symm) m3
      · intro m2 sc _ hCc
        dsimp only
        refine foldl_block_skip _ _ _ i j ?_ m2
        intro r _ c hc
        have := List.mem_range'_1.1 hc
        rintro ⟨-, rfl⟩
        exact hCc ⟨by omega, by omega⟩
  · intro m s _ hC
    dsimp only
    rw [if_pos (Nat.pos_iff_ne_zero.1 hcp)]
    have hA : ∀ m' : Nat → Nat → ℚ,
        (List.range' s (min paths.length (s + nRPC) - s)).foldl
          (fun mat rowIndex =>
            (List.range' (rowIndex + 1)
              (min paths.length (s + nRPC) - (rowIndex + 1))).foldl
              (fun mat colIndex =>
                setEntry mat rowIndex colIndex
                  (ip (((paths.drop s).take (min paths.length (s + nRPC) - s)).map load |>.getD (rowIndex - s) default)
                      (((paths.drop s).take (min paths.length (s + nRPC) - s)).map load |>.getD (colIndex - s) default)))
              (setEntry mat rowIndex rowIndex
                (ip (((paths.drop s).take (min paths.length (s + nRPC) - s)).map load |>.getD (rowIndex - s) default)
                    (((paths.drop s).take (min paths.length (s + nRPC) - s)).map load |>.getD (rowIndex - s) default))))
          m' i j = m' i j := by
      intro m'
      refine foldl_write_of_forall_not _ _ (fun _ => False) i j ?_
        (fun _ _ => not_false) m'
      intro m2 r hr _
      dsimp only
      have hrb := List.mem_range'_1.1 hr
      rw [foldl_setEntry_skip _ _ _ i j
        (by rintro c - ⟨rfl, -⟩; exact hC ⟨by omega, by omega⟩)]
      simp only [setEntry]
      rw [if_neg]
      rintro ⟨rfl, -⟩
      exact hC ⟨by omega, by omega⟩
    refine foldl_write_of_forall_not _ _ (fun _ => False) i j ?_
      (fun _ _ => not_false) _ |>.trans (hA m)
    intro m2 sc _ _
    dsimp only
    refine foldl_block_skip _ _ _ i j ?_ m2
    intro r hr c _
    have := List.mem_range'_1.1 hr
    rintro ⟨rfl, -⟩
    exact hC ⟨by omega, by omega⟩

/-- Full characterization of `compute_symmetric_inner_product_mat`: it
succeeds, is square, and its (i, j) entry is the inner product of fields i
and j in index order for the upper triangle and in swapped order below the
diagonal (the mirrored upper triangle). -/
theorem compute_symmetric_inner_product_mat_spec {H F : Type} [Inhabited H]
    [Inhabited F] [DecidableEq H] (ip : F → F → ℚ) (load : H → F)
    (P : List H) (maxFields : Nat) :
    ∃ M : Mat,
      compute_symmetric_inner_product_mat ip load P maxFields = Except.ok M ∧
      M.rows = P.length ∧ M.cols = P.length ∧
      ∀ i j, i < P.length → j < P.length →
        M.entry i j
          = if i ≤ j then ip (load (P.getD i default)) (load (P.getD j default))
            else ip (load (P.getD j default)) (load (P.getD i default)) := by
  have hrp : 0 < (find_numRows_numCols_per_chunk maxFields).1 := Nat.one_pos
  have hcp : 0 < (find_numRows_numCols_per_chunk maxFields).2 :=
    Nat.lt_of_lt_of_le Nat.one_pos (le_max_right _ _)
  unfold compute_symmetric_inner_product_mat
    _compute_upper_triangular_inner_product_chunk
  rw [if_neg (by simp [List.take_length])]
  refine ⟨_, rfl, rfl, rfl, fun i j hi hj => ?_⟩
  rcases le_or_lt i j with hij | hji
  · rw [if_pos hij]
    dsimp only
    rw [if_neg (by omega)]
    rw [upperTriangularLoops_entry ip load P _ _ hrp hcp i j hij hj, add_zero]
  · rw [if_neg (by omega)]
    dsimp only
    rw [if_pos (by omega)]
    rw [upperTriangularLoops_lower ip load P _ _ i j hji,
      upperTriangularLoops_entry ip load P _ _ hrp hcp j i (le_of_lt hji) hi,
      zero_add]

/-- Claim C1, counterexample: with the bilinear but non-symmetric form
`ip (a1, a2) (b1, b2) = a1 * b2` and `len(R) > len(C)`, the swap-and-transpose
path returns `ip(load(C[j]), load(R[i]))`, which differs from the claimed
`ip(load(R[i]), load(C[j]))`. -/
theorem c1_counterexample :
    (compute_inner_product_mat (fun a b : ℚ × ℚ => a.1 * b.2)
        (fun n : Nat => ((n : ℚ), 1)) [0, 1] [5] 2).entry 0 0
      ≠ (fun a b : ℚ × ℚ => a.1 * b.2)
          ((fun n : Nat => ((n : ℚ), 1)) (([0, 1] : List Nat).getD 0 default))
          ((fun n : Nat => ((n : ℚ), 1)) (([5] : List Nat).getD 0 default)) := by
  have h := (compute_inner_product_mat_spec (fun a b : ℚ × ℚ => a.1 * b.2)
    (fun n : Nat => ((n : ℚ), 1)) [0, 1] [5] 2).2.2 0 0 (by decide) (by decide)
  rw [h, if_pos (by decide)]
  norm_num

/-- Claim C1 (amended): `compute_inner_product_mat(R, C)` always has shape
`(len(R), len(C))`; its (i, j) entry is `ip(load(R[i]), load(C[j]))` when
`len(R) <= len(C)` and `ip(load(C[j]), load(R[i]))` when `len(R) > len(C)`;
whenever the supplied inner product is symmetric the two coincide, so the
originally claimed entries hold for both orientations. -/
theorem c1_orientation (H F : Type) [Inhabited H] [Inhabited F]
    (ip : F → F → ℚ) (load : H → F) (R C : List H) (maxFields : Nat)
    (hR : R ≠ []) (hC : C ≠ []) :
    (compute_inner_product_mat ip load R C maxFields).rows = R.length ∧
    (compute_inner_product_mat ip load R C maxFields).cols = C.length ∧
    (∀ i j, i < R.length → j < C.length →
      (compute_inner_product_mat ip load R C maxFields).entry i j
        = if C.length < R.length
          then ip (load (C.getD j default)) (load (R.getD i default))
          else ip (load (R.getD i default)) (load (C.getD j default))) ∧
    ((∀ a b, ip a b = ip b a) → ∀ i j, i < R.length → j < C.length →
      (compute_inner_product_mat ip load R C maxFields).entry i j
        = ip (load (R.getD i default)) (load (C.getD j default))) := by
  obtain ⟨h1, h2, h3⟩ := compute_inner_product_mat_spec ip load R C maxFields
  refine ⟨h1, h2, h3, fun hsym i j hi hj => ?_⟩
  rw [h3 i j hi hj]
  split
  · exact hsym _ _
  · rfl

/-- Witness for `c1_orientation` at a concrete swapped-orientation input. -/
theorem c1_orientation_witness :
    (([0, 1] : List Nat) ≠ [] ∧ ([5] : List Nat) ≠ []) ∧
    (compute_inner_product_mat (fun a b : ℚ => a * b)
        (fun n : Nat => (n : ℚ)) [0, 1] [5] 2).entry 1 0
      = (fun a b : ℚ => a * b)
          ((fun n : Nat => (n : ℚ)) (([0, 1] : List Nat).getD 1 default))
          ((fun n : Nat => (n : ℚ)) (([5] : List Nat).getD 0 default)) :=
  ⟨⟨by decide, by decide⟩,
    (c1_orientation Nat ℚ (fun a b => a * b) (fun n => (n : ℚ)) [0, 1] [5] 2
      (by decide) (by decide)).2.2.2 (fun a b => mul_comm a b) 1 0
      (by decide) (by decide)⟩

/-- Claim C4: for fixed `R`, `C` and inner product, the matrix returned by
`compute_inner_product_mat` has the same shape and the same in-shape entries
for every pair of memory budgets at least 1: batching never changes the
result. -/
theorem c4_chunk_size_invariance (H F : Type) [Inhabited H] [Inhabited F]
    (ip : F → F → ℚ) (load : H → F) (R C : List H) (b1 b2 : Nat)
    (hb1 : 1 ≤ b1) (hb2 : 1 ≤ b2) :
    (compute_inner_product_mat ip load R C b1).rows
      = (compute_inner_product_mat ip load R C b2).rows ∧
    (compute_inner_product_mat ip load R C b1).cols
      = (compute_inner_product_mat ip load R C b2).cols ∧
    ∀ i j, i < R.length → j < C.length →
      (compute_inner_product_mat ip load R C b1).entry i j
        = (compute_inner_product_mat ip load R C b2).entry i j := by
  obtain ⟨h1, h2, h3⟩ := compute_inner_product_mat_spec ip load R C b1
  obtain ⟨g1, g2, g3⟩ := compute_inner_product_mat_spec ip load R C b2
  exact ⟨h1.trans g1.symm, h2.trans g2.symm,
    fun i j hi hj => (h3 i j hi hj).trans (g3 i j hi hj).symm⟩

/-- Witness for `c4_chunk_size_invariance` with budgets 1 and 7 (7 is at
least `len(R) + len(C) = 5`). -/
theorem c4_chunk_size_invariance_witness :
    ((1 : Nat) ≤ 1 ∧ (1 : Nat) ≤ 7) ∧
    (compute_inner_product_mat (fun a b : ℚ => a * b)
        (fun n : Nat => (n : ℚ)) [0, 1, 2] [3, 4] 1).entry 2 1
      = (compute_inner_product_mat (fun a b : ℚ => a * b)
        (fun n : Nat => (n : ℚ)) [0, 1, 2] [3, 4] 7).entry 2 1 :=
  ⟨⟨le_refl 1, by decide⟩,
    (c4_chunk_size_invariance Nat ℚ (fun a b => a * b) (fun n => (n : ℚ))
      [0, 1, 2] [3, 4] 1 7 (le_refl 1) (by decide)).2.2 2 1
      (by decide) (by decide)⟩

/-- Claim C3: for a symmetric inner product, the symmetric engine succeeds and
returns a square matrix equal to `compute_inner_product_mat(H, H)` entrywise,
and the returned matrix is exactly symmetric. -/
theorem c3_symmetry_correctness (H F : Type) [Inhabited H] [Inhabited F]
    [DecidableEq H] (ip : F → F → ℚ) (load : H → F) (P : List H)
    (maxFields : Nat) (hP : P ≠ []) :
    ∃ M : Mat,
      compute_symmetric_inner_product_mat ip load P maxFields = Except.ok M ∧
      M.rows = P.length ∧ M.cols = P.length ∧
      (∀ i j, i < P.length → j < P.length → M.entry i j = M.entry j i) ∧
      ((∀ a b, ip a b = ip b a) →
        ∀ i j, i < P.length → j < P.length →
        M.entry i j
          = (compute_inner_product_mat ip load P P maxFields).entry i j) := by
  obtain ⟨M, hM, h1, h2, h3⟩ :=
    compute_symmetric_inner_product_mat_spec ip load P maxFields
  obtain ⟨r1, r2, r3⟩ := compute_inner_product_mat_spec ip load P P maxFields
  refine ⟨M, hM, h1, h2, fun i j hi hj => ?_, fun hsym i j hi hj => ?_⟩
  · rw [h3 i j hi hj, h3 j i hj hi]
    rcases lt_trichotomy i j with h | h | h
    · rw [if_pos (le_of_lt h), if_neg (by omega)]
    · subst h; rfl
    · rw [if_neg (by omega), if_pos (le_of_lt h)]
  · rw [h3 i j hi hj, r3 i j hi hj, if_neg (lt_irrefl _)]
    split
    · rfl
    · exact hsym _ _

/-- Witness for `c3_symmetry_correctness` at a concrete three-field input. -/
theorem c3_symmetry_correctness_witness :
    (([0, 1, 2] : List Nat) ≠ [] ∧ ∀ a b : ℚ, a * b = b * a) ∧
    ∃ M : Mat,
      compute_symmetric_inner_product_mat (fun a b : ℚ => a * b)
        (fun n : Nat => (n : ℚ)) [0, 1, 2] 2 = Except.ok M ∧
      M.entry 1 2 = M.entry 2 1 ∧
      M.entry 2 1 = (compute_inner_product_mat (fun a b : ℚ => a * b)
        (fun n : Nat => (n : ℚ)) [0, 1, 2] [0, 1, 2] 2).entry 2 1 := by
  refine ⟨⟨by decide, fun a b => mul_comm a b⟩, ?_⟩
  obtain ⟨M, hM, -, -, hsymm, heq⟩ := c3_symmetry_correctness Nat ℚ
    (fun a b => a * b) (fun n => (n : ℚ)) [0, 1, 2] 2 (by decide)
  exact ⟨M, hM, hsymm 1 2 (by decide) (by decide),
    heq (fun a b => mul_comm a b) 2 1 (by decide) (by decide)⟩

section LinearCombinationEngine

variable {H F : Type} [Inhabited H] [Inhabited F] [AddCommMonoid F]
  [Module ℚ F]

/-- `FieldOperations.lin_combine_chunk` (fieldoperations.py lines 574-645):
iterate input chunks, load the batch, and for every (output, input) pair of
the batch either create the output accumulator (`outputLayers.append`) or add
the scaled layer into it (`outputLayers[outputIndex] += outputLayer`).  The
source's field-times-scalar `inputs[...] * fieldCoeffMat[i, o]` is the module
action `fieldCoeffMat[i, o] • inputs[...]`; the in-place `+=` is a functional
list update.  Python's `assert fieldCoeffMat.shape[0] == numInputs` (line 599)
raises `AssertionError` when it fails. -/
def lin_combine_chunk_loop (load : H → F) (inputFieldPaths : List H)
    (fieldCoeffMat : Mat) (numInputsPerChunk : Nat)
    (chunkStarts : List Nat) : List F :=
  chunkStarts.foldl
    (fun outputLayers startInputIndex =>
      let endInputIndex :=
        min (startInputIndex + numInputsPerChunk) inputFieldPaths.length
      let inputs := ((inputFieldPaths.drop startInputIndex).take
        (endInputIndex - startInputIndex)).map load
      (List.range fieldCoeffMat.cols).foldl (fun outputLayers outputIndex =>
        (List.range' startInputIndex (endInputIndex - startInputIndex)).foldl
          (fun outputLayers inputIndex =>
            let outputLayer := fieldCoeffMat.entry inputIndex outputIndex •
              inputs.getD (inputIndex - startInputIndex) default
            if outputLayers.length ≤ outputIndex then
              outputLayers ++ [outputLayer]
            else
              outputLayers.set outputIndex
                (outputLayers.getD outputIndex default + outputLayer))
          outputLayers)
        outputLayers)
    []

/-- The `lin_combine_chunk` body as stated in the source: assert the shape,
then run the chunked accumulation loop over `range(0, numInputs,
numInputsPerChunk)`. -/
def lin_combine_chunk (load : H → F) (inputFieldPaths : List H)
    (fieldCoeffMat : Mat) (numInputsPerChunk : Nat) :
    Except PyError (List F) :=
  let numInputs := inputFieldPaths.length
  if fieldCoeffMat.rows = numInputs then
    Except.ok (lin_combine_chunk_loop load inputFieldPaths fieldCoeffMat
      numInputsPerChunk (rangeStep 0 numInputs numInputsPerChunk))
  else Except.error PyError.assertionError

/-- The output-batch loop of `FieldOperations.lin_combine` (lines 545-565):
per batch, compute the accumulators with `lin_combine_chunk` and save each
finished accumulator to its output path (saving is modelled by returning the
ordered list of (path, field) save events). -/
def lin_combine_loop (load : H → F) (outputFieldPaths inputFieldPaths : List H)
    (fieldCoeffMat : Mat) (numInputsPerChunk numOutputsPerNode : Nat)
    (batchStarts : List Nat) : Except PyError (List (H × F)) :=
  batchStarts.foldl
    (fun acc startOutputIndex =>
      match acc with
      | Except.error e => Except.error e
      | Except.ok savedFields =>
        let endOutputIndex := min outputFieldPaths.length
          (startOutputIndex + numOutputsPerNode)
        match lin_combine_chunk load inputFieldPaths
            (fieldCoeffMat.colSlice startOutputIndex endOutputIndex)
            numInputsPerChunk with
        | Except.error e => Except.error e
        | Except.ok outputLayers =>
          Except.ok (savedFields ++
            (((outputFieldPaths.drop startOutputIndex).take
              (endOutputIndex - startOutputIndex)).zip outputLayers)))
    (Except.ok [])

/-- `FieldOperations.lin_combine` (lines 484-570): guard the missing save
operation, validate the coefficient-matrix shape, then stream output batches,
computing each batch with `lin_combine_chunk` and saving the finished
accumulators.  Saving is modelled by returning the ordered list of
(path, field) save events.  `util.getNumProcs()` is the `numProcs`
parameter. -/
def lin_combine (save_defined : Bool) (load : H → F)
    (outputFieldPaths inputFieldPaths : List H) (fieldCoeffMat : Mat)
    (maxFields numProcs : Nat) : Except PyError (List (H × F)) :=
  if save_defined = false then
    Except.error (PyError.undefinedError ("save_field is undefined"))
  else
    let numInputFields := inputFieldPaths.length
    let numOutputFields := outputFieldPaths.length
    if numInputFields > fieldCoeffMat.rows then
      Except.error (PyError.valueError
        ("coeff mat has fewer rows than num of input paths"))
    else if numOutputFields > fieldCoeffMat.cols then
      Except.error (PyError.valueError
        ("Coeff matrix has fewer cols than num of output paths"))
    else
      let numInputsPerChunk :=
        if maxFields > numProcs then numProcs
        else max (maxFields - numProcs - 1) 1
      let numOutputsPerNode := maxFields - numInputsPerChunk
      lin_combine_loop load outputFieldPaths inputFieldPaths fieldCoeffMat
        numInputsPerChunk numOutputsPerNode
        (rangeStep 0 numOutputFields numOutputsPerNode)

/-- `FieldOperations._compute_modes` (lines 426-480): guard the missing save
operation (the source raises the unqualified name `UndefinedError`, which is
unbound in the module, so Python raises a `NameError` naming
`UndefinedError`), validate the mode count and every requested mode number,
then reorder the coefficient columns, format the mode paths and delegate to
`lin_combine`.  The `%`-template is the abstract path formatter
`modePath : Int → H`. -/
def _compute_modes (save_defined : Bool) (load : H → F)
    (modeNumList : List Int) (modePath : Int → H) (snapPaths : List H)
    (fieldCoeffMat : Mat) (indexFrom : Int) (maxFields numProcs : Nat) :
    Except PyError (List (H × F)) :=
  if save_defined = false then
    Except.error (PyError.nameError ("UndefinedError"))
  else
    let numModes := modeNumList.length
    let numSnaps := snapPaths.length
    if numModes > numSnaps then
      Except.error (PyError.valueError
        ("cannot compute more modes than number of snapshots"))
    else
      match modeNumList.findSome? (fun modeNum =>
        if modeNum < indexFrom then
          some (PyError.valueError
            ("Cannot compute if mode number is less than indexFrom"))
        else if (fieldCoeffMat.cols : Int) ≤ modeNum - indexFrom then
          some (PyError.valueError
            ("Cannot compute if mode index is greater than number of columns in the build coefficient matrix"))
        else none) with
      | some e => Except.error e
      | none =>
        let fieldCoeffMatReordered := Mat.mk fieldCoeffMat.rows numModes
          (fun i j => fieldCoeffMat.entry i
            ((modeNumList.getD j 0 - indexFrom).toNat))
        let modePaths := modeNumList.map modePath
        lin_combine save_defined load modePaths snapPaths
          fieldCoeffMatReordered maxFields numProcs

end LinearCombinationEngine

section LayerLemmas

variable {F : Type} [Inhabited F] [AddCommMonoid F]

/-- Setting an index of a list to its current value is the identity. -/
theorem set_getD_self (l : List F) (k : Nat) (h : k < l.length) :
    l.set k (l.getD k default) = l := by
  refine List.ext_getElem (by simp) ?_
  intro n h1 h2
  rw [List.getElem_set]
  split
  · subst ‹k = n›
    exact List.getD_eq_getElem l default h2
  · rfl

/-- A fold whose body ignores the list elements is the identity. -/
theorem foldl_const {α β : Type} (L : List β) (x : α) :
    L.foldl (fun a _ => a) x = x := by
  induction L with
  | nil => rfl
  | cons b t ih => exact ih

/-- List-sum of a mapped `range'` as a `Finset.Ico` sum. -/
theorem sum_map_range' (f : Nat → F) (c : Nat) :
    ∀ s : Nat, ((List.range' s c).map f).sum = ∑ i ∈ Finset.Ico s (s + c), f i := by
  induction c with
  | zero => intro s; simp
  | succ c ih =>
    intro s
    have hlt : s < s + (c + 1) := by omega
    have harg : s + 1 + c = s + (c + 1) := by omega
    rw [List.range'_succ, List.map_cons, List.sum_cons, ih (s + 1), harg,
      Finset.sum_eq_sum_Ico_succ_bot hlt f]

/-- The per-output inner loop of `lin_combine_chunk` in the accumulate case:
with the output accumulator already present, it adds the chunk sum into it. -/
theorem layers_inner_set (w : Nat → F) (k : Nat) :
    ∀ (c s : Nat) (ls : List F), k < ls.length →
    (List.range' s c).foldl (fun ls i =>
        if ls.length ≤ k then ls ++ [w i]
        else ls.set k (ls.getD k default + w i)) ls
      = ls.set k (ls.getD k default + ((List.range' s c).map w).sum) := by
  intro c
  induction c with
  | zero =>
    intro s ls h
    simp only [List.range'_zero, List.foldl_nil, List.map_nil, List.sum_nil,
      add_zero]
    exact (set_getD_self ls k h).symm
  | succ c ih =>
    intro s ls h
    rw [List.range'_succ, List.foldl_cons]
    rw [if_neg (by omega)]
    rw [ih (s + 1) _ (by simp [h])]
    have hk' : k < (ls.set k (ls.getD k default + w s)).length := by simp [h]
    rw [List.getD_eq_getElem _ _ hk', List.getElem_set_self, List.set_set]
    rw [List.map_cons, List.sum_cons, add_assoc]

end LayerLemmas

section LayerLemmas2

variable {F : Type} [Inhabited F] [AddCommMonoid F]

/-- The per-output inner loop of `lin_combine_chunk` in the append case: the
first input of a nonempty chunk creates the accumulator, the rest add into
it, leaving the chunk sum appended. -/
theorem layers_inner_append (w : Nat → F) (k : Nat) :
    ∀ (c s : Nat) (ls : List F), k = ls.length → 0 < c →
    (List.range' s c).foldl (fun ls i =>
        if ls.length ≤ k then ls ++ [w i]
        else ls.set k (ls.getD k default + w i)) ls
      = ls ++ [((List.range' s c).map w).sum] := by
  intro c
  cases c with
  | zero => intro s ls hk hc; omega
  | succ c =>
    intro s ls hk _
    rw [List.range'_succ, List.foldl_cons, if_pos (by omega)]
    rw [layers_inner_set w k c (s + 1) (ls ++ [w s])
      (by rw [List.length_append]; simp; omega)]
    have hk2 : k < (ls ++ [w s]).length := by rw [List.length_append]; simp; omega
    rw [List.getD_eq_getElem _ _ hk2, List.getElem_concat_length _ _ _ hk]
    rw [List.set_append, if_neg (by omega)]
    have hz : k - ls.length = 0 := by omega
    rw [hz, List.set_cons_zero, List.map_cons, List.sum_cons]

/-- The output loop of `lin_combine_chunk` on the first input chunk: starting
from an empty accumulator list, it appends one chunk sum per output index. -/
theorem layers_outputs_fresh (w : Nat → Nat → F) (c s : Nat) (hc : 0 < c) :
    ∀ (m k0 : Nat) (ls : List F), ls.length = k0 →
    (List.range' k0 m).foldl (fun ls k =>
        (List.range' s c).foldl (fun ls i =>
          if ls.length ≤ k then ls ++ [w k i]
          else ls.set k (ls.getD k default + w k i)) ls) ls
      = ls ++ (List.range' k0 m).map (fun k => ((List.range' s c).map (w k)).sum) := by
  intro m
  induction m with
  | zero => intro k0 ls h; simp
  | succ m ih =>
    intro k0 ls h
    rw [List.range'_succ, List.foldl_cons]
    rw [layers_inner_append (w k0) k0 c s ls h.symm hc]
    rw [ih (k0 + 1) _ (by simp [h])]
    rw [List.append_assoc, List.map_cons, List.singleton_append]

/-- The output loop of `lin_combine_chunk` on a later input chunk: every
accumulator is already present and gets its chunk sum added. -/
theorem layers_outputs_update (w : Nat → Nat → F) (c s : Nat) :
    ∀ (m k0 : Nat) (ls : List F), k0 + m ≤ ls.length →
    ((List.range' k0 m).foldl (fun ls k =>
        (List.range' s c).foldl (fun ls i =>
          if ls.length ≤ k then ls ++ [w k i]
          else ls.set k (ls.getD k default + w k i)) ls) ls).length
      = ls.length ∧
    ∀ j, j < ls.length →
      ((List.range' k0 m).foldl (fun ls k =>
          (List.range' s c).foldl (fun ls i =>
            if ls.length ≤ k then ls ++ [w k i]
            else ls.set k (ls.getD k default + w k i)) ls) ls).getD j default
        = if k0 ≤ j ∧ j < k0 + m then
            ls.getD j default + ((List.range' s c).map (w j)).sum
          else ls.getD j default := by
  intro m
  induction m with
  | zero =>
    intro k0 ls h
    simp only [List.range'_zero, List.foldl_nil]
    exact ⟨trivial, fun j hj => by rw [if_neg (by omega)]⟩
  | succ m ih =>
    intro k0 ls h
    rw [List.range'_succ, List.foldl_cons]
    rw [layers_inner_set (w k0) k0 c s ls (by omega)]
    have hlen : (ls.set k0 (ls.getD k0 default + ((List.range' s c).map (w k0)).sum)).length = ls.length :=
      List.length_set ls k0 _
    obtain ⟨ih1, ih2⟩ := ih (k0 + 1)
      (ls.set k0 (ls.getD k0 default + ((List.range' s c).map (w k0)).sum))
      (by omega)
    refine ⟨ih1.trans hlen, fun j hj => ?_⟩
    rw [ih2 j (by omega)]
    by_cases hj0 : j = k0
    · subst hj0
      rw [if_neg (by omega), if_pos (by omega)]
      rw [List.getD_eq_getElem _ _ (by omega), List.getElem_set_self,
        List.getD_eq_getElem _ _ (by omega)]
    · have hset : (ls.set k0 (ls.getD k0 default + ((List.range' s c).map (w k0)).sum)).getD j default = ls.getD j default := by
        rw [List.getD_eq_getElem _ _ (by omega),
          List.getElem_set_ne (by omega) (by omega)]
        exact (List.getD_eq_getElem ls default hj).symm
      rw [hset]
      by_cases hin : k0 + 1 ≤ j ∧ j < k0 + 1 + m
      · rw [if_pos hin, if_pos (by omega)]
      · rw [if_neg hin, if_neg (by omega)]

end LayerLemmas2


section ChunkLoop

variable {H F : Type} [Inhabited H] [Inhabited F] [AddCommMonoid F]
  [Module ℚ F]

theorem lin_combine_chunk_loop_nil (load : H → F) (paths : List H)
    (coeff : Mat) (nIPC : Nat) :
    lin_combine_chunk_loop load paths coeff nIPC [] = [] := rfl

/-- Unfolding one trailing chunk of the accumulation loop. -/
theorem lin_combine_chunk_loop_concat (load : H → F) (paths : List H)
    (coeff : Mat) (nIPC : Nat) (L : List Nat) (s : Nat) :
    lin_combine_chunk_loop load paths coeff nIPC (L ++ [s])
      = (List.range coeff.cols).foldl (fun ls k =>
          (List.range' s (min (s + nIPC) paths.length - s)).foldl
            (fun ls i =>
              if ls.length ≤ k then
                ls ++ [coeff.entry i k •
                  (((paths.drop s).take (min (s + nIPC) paths.length - s)).map
                    load).getD (i - s) default]
              else ls.set k (ls.getD k default + coeff.entry i k •
                (((paths.drop s).take (min (s + nIPC) paths.length - s)).map
                  load).getD (i - s) default))
            ls)
          (lin_combine_chunk_loop load paths coeff nIPC L) := by
  simp only [lin_combine_chunk_loop, List.foldl_append, List.foldl_cons,
    List.foldl_nil]

/-- The accumulation loop over the first `cnt` chunks: the accumulator list
is created by the first nonempty chunk (length `numOutputs`), and each
accumulator holds the weighted sum of all inputs covered so far. -/
theorem lin_combine_chunk_loop_spec (load : H → F) (paths : List H)
    (coeff : Mat) (nIPC : Nat) (hIPC : 0 < nIPC) (cnt : Nat) :
    (lin_combine_chunk_loop load paths coeff nIPC
        (List.range' 0 cnt nIPC)).length
      = (if min paths.length (nIPC * cnt) = 0 ∨ coeff.cols = 0 then 0
         else coeff.cols) ∧
    (0 < min paths.length (nIPC * cnt) →
      ∀ j < coeff.cols,
      (lin_combine_chunk_loop load paths coeff nIPC
          (List.range' 0 cnt nIPC)).getD j default
        = ((List.range' 0 (min paths.length (nIPC * cnt))).map
            (fun i => coeff.entry i j • load (paths.getD i default))).sum) := by
  induction cnt with
  | zero =>
    rw [List.range'_zero, lin_combine_chunk_loop_nil]
    exact ⟨by simp, by simp⟩
  | succ cnt ih =>
    have hconcat : List.range' 0 (cnt + 1) nIPC
        = List.range' 0 cnt nIPC ++ [nIPC * cnt] := by
      have := @List.range'_concat nIPC 0 cnt
      simpa using this
    rw [hconcat, lin_combine_chunk_loop_concat]
    rcases le_or_lt paths.length (nIPC * cnt) with hs | hs
    · -- the new chunk starts at or beyond the end: it is a no-op
      have hnil : min (nIPC * cnt + nIPC) paths.length - nIPC * cnt = 0 := by
        omega
      have hmin : min paths.length (nIPC * (cnt + 1))
          = min paths.length (nIPC * cnt) := by
        have : nIPC * (cnt + 1) = nIPC * cnt + nIPC := by ring
        omega
      simp only [hnil, List.range'_zero, List.foldl_nil, foldl_const, hmin]
      exact ih
    · -- a real chunk [s, e) with s < paths.length
      have he : nIPC * cnt < min (nIPC * cnt + nIPC) paths.length := by omega
      have heA : min (nIPC * cnt + nIPC) paths.length ≤ paths.length :=
        Nat.min_le_right _ _
      have hbody :
          (List.range coeff.cols).foldl (fun ls k =>
            (List.range' (nIPC * cnt)
              (min (nIPC * cnt + nIPC) paths.length - nIPC * cnt)).foldl
              (fun ls i =>
                if ls.length ≤ k then
                  ls ++ [coeff.entry i k •
                    (((paths.drop (nIPC * cnt)).take
                      (min (nIPC * cnt + nIPC) paths.length - nIPC * cnt)).map
                      load).getD (i - nIPC * cnt) default]
                else ls.set k (ls.getD k default + coeff.entry i k •
                  (((paths.drop (nIPC * cnt)).take
                    (min (nIPC * cnt + nIPC) paths.length - nIPC * cnt)).map
                    load).getD (i - nIPC * cnt) default))
              ls)
            (lin_combine_chunk_loop load paths coeff nIPC
              (List.range' 0 cnt nIPC))
          = (List.range coeff.cols).foldl (fun ls k =>
            (List.range' (nIPC * cnt)
              (min (nIPC * cnt + nIPC) paths.length - nIPC * cnt)).foldl
              (fun ls i =>
                if ls.length ≤ k then
                  ls ++ [coeff.entry i k • load (paths.getD i default)]
                else ls.set k (ls.getD k default +
                  coeff.entry i k • load (paths.getD i default))) ls)
            (lin_combine_chunk_loop load paths coeff nIPC
              (List.range' 0 cnt nIPC)) := by
        refine List.foldl_ext _ _ _ (fun ls' k _ => ?_)
        refine List.foldl_ext _ _ ls' (fun ls2 i hi => ?_)
        have hib := List.mem_range'_1.1 hi
        have hgd : (((paths.drop (nIPC * cnt)).take
            (min (nIPC * cnt + nIPC) paths.length - nIPC * cnt)).map
              load).getD (i - nIPC * cnt) default
            = load (paths.getD i default) :=
          getD_slice_map load paths (nIPC * cnt)
            (min (nIPC * cnt + nIPC) paths.length) i (by omega) (by omega)
            heA default
        rw [hgd]
      rw [hbody]
      rcases Nat.eq_zero_or_pos coeff.cols with hc0 | hc0
      · -- no outputs at all
        simp only [hc0, List.range_zero, List.foldl_nil]
        obtain ⟨ih1, -⟩ := ih
        refine ⟨ih1.trans ?_, fun _ j hj => by omega⟩
        simp [hc0]
      · rcases Nat.eq_zero_or_pos (min paths.length (nIPC * cnt)) with hp0 | hp0
        · -- first real chunk: the accumulators are created now
          have hszero : nIPC * cnt = 0 := by omega
          obtain ⟨ih1, -⟩ := ih
          rw [if_pos (Or.inl hp0)] at ih1
          have hprev : lin_combine_chunk_loop load paths coeff nIPC
              (List.range' 0 cnt nIPC) = [] := List.length_eq_zero.1 ih1
          rw [hprev]
          rw [show List.range coeff.cols = List.range' 0 coeff.cols from
            List.range_eq_range' _]
          rw [layers_outputs_fresh _ _ _ (by omega) coeff.cols 0 [] rfl]
          rw [List.nil_append]
          have hminp : min paths.length (nIPC * (cnt + 1))
              = min (nIPC * cnt + nIPC) paths.length := by
            have : nIPC * (cnt + 1) = nIPC * cnt + nIPC := by ring
            omega
          constructor
          · rw [List.length_map, List.length_range']
            rw [if_neg]
            push_neg
            exact ⟨by omega, by omega⟩
          · intro hpos j hj
            have hjlen : j < ((List.range' 0 coeff.cols).map
                (fun k => ((List.range' (nIPC * cnt)
                  (min (nIPC * cnt + nIPC) paths.length - nIPC * cnt)).map
                  (fun i => coeff.entry i k •
                    load (paths.getD i default))).sum)).length := by
              rw [List.length_map, List.length_range']
              exact hj
            rw [List.getD_eq_getElem _ _ hjlen, List.getElem_map,
              List.getElem_range']
            rw [hminp, hszero]
            simp only [Nat.zero_add, Nat.one_mul, Nat.sub_zero]
        · -- later chunk: every accumulator exists and is extended
          obtain ⟨ih1, ih2⟩ := ih
          rw [if_neg (by push_neg; exact ⟨by omega, by omega⟩)] at ih1
          have hupd := layers_outputs_update
            (fun k i => coeff.entry i k • load (paths.getD i default))
            (min (nIPC * cnt + nIPC) paths.length - nIPC * cnt) (nIPC * cnt)
            coeff.cols 0
            (lin_combine_chunk_loop load paths coeff nIPC
              (List.range' 0 cnt nIPC))
            (by rw [ih1]; omega)
          rw [show List.range coeff.cols = List.range' 0 coeff.cols from
            List.range_eq_range' _]
          obtain ⟨hlen, hget⟩ := hupd
          constructor
          · rw [hlen, ih1]
            rw [if_neg]
            push_neg
            refine ⟨?_, by omega⟩
            have : nIPC * (cnt + 1) = nIPC * cnt + nIPC := by ring
            omega
          · intro _ j hj
            rw [hget j (by rw [ih1]; exact hj),
              if_pos ⟨Nat.zero_le j, by omega⟩]
            rw [ih2 hp0 j hj]
            have hsplit : List.range' 0 (min paths.length (nIPC * cnt))
                ++ List.range' (min paths.length (nIPC * cnt))
                  (min (nIPC * cnt + nIPC) paths.length - nIPC * cnt)
                = List.range' 0 (min paths.length (nIPC * (cnt + 1))) := by
              have h1 : min paths.length (nIPC * cnt) = nIPC * cnt := by omega
              have h2 : nIPC * (cnt + 1) = nIPC * cnt + nIPC := by ring
              rw [h1]
              have h3 := List.range'_append 0 (nIPC * cnt)
                (min (nIPC * cnt + nIPC) paths.length - nIPC * cnt) 1
              simp only [Nat.one_mul, Nat.zero_add] at h3
              rw [h3]
              congr 1
              omega
            rw [← hsplit, List.map_append, List.sum_append]
            have h1 : min paths.length (nIPC * cnt) = nIPC * cnt := by omega
            rw [h1]

end ChunkLoop

section LinCombineSpec

variable {H F : Type} [Inhabited H] [Inhabited F] [AddCommMonoid F]
  [Module ℚ F]

/-- The ceiling count of `range(0, n, k)` covers all of `[0, n)`. -/
theorem rangeStep_ceil_covers (n k : Nat) (hk : 0 < k) :
    min n (k * ((n + k - 1) / k)) = n := by
  have h1 := Nat.div_add_mod (n + k - 1) k
  have h2 := Nat.mod_lt (n + k - 1) hk
  omega

/-- `lin_combine_chunk` on a nonempty input list with a matching row count:
it succeeds and returns one finished accumulator per output column, each the
weighted sum of all loaded inputs. -/
theorem lin_combine_chunk_spec (load : H → F) (paths : List H) (coeff : Mat)
    (nIPC : Nat) (hIPC : 0 < nIPC) (hrows : coeff.rows = paths.length)
    (hn : 0 < paths.length) :
    ∃ layers : List F,
      lin_combine_chunk load paths coeff nIPC = Except.ok layers ∧
      layers.length = coeff.cols ∧
      ∀ j < coeff.cols, layers.getD j default
        = ((List.range' 0 paths.length).map
            (fun i => coeff.entry i j • load (paths.getD i default))).sum := by
  have hspec := lin_combine_chunk_loop_spec load paths coeff nIPC hIPC
    ((paths.length + nIPC - 1) / nIPC)
  have hcov := rangeStep_ceil_covers paths.length nIPC hIPC
  rw [hcov] at hspec
  obtain ⟨hlen, hget⟩ := hspec
  have hrs : rangeStep 0 paths.length nIPC
      = List.range' 0 ((paths.length + nIPC - 1) / nIPC) nIPC := by
    simp only [rangeStep, Nat.sub_zero]
  refine ⟨lin_combine_chunk_loop load paths coeff nIPC
    (rangeStep 0 paths.length nIPC), ?_, ?_, ?_⟩
  · simp only [lin_combine_chunk]
    rw [if_pos hrows]
  · rw [hrs, hlen]
    split
    · omega
    · rfl
  · intro j hj
    rw [hrs]
    exact hget hn j hj

/-- Unfolding one trailing batch of the output loop. -/
theorem lin_combine_loop_concat (load : H → F) (O I : List H) (M : Mat)
    (nIPC nOPN : Nat) (L : List Nat) (so : Nat) :
    lin_combine_loop load O I M nIPC nOPN (L ++ [so])
      = match lin_combine_loop load O I M nIPC nOPN L with
        | Except.error e => Except.error e
        | Except.ok savedFields =>
          match lin_combine_chunk load I
              (M.colSlice so (min O.length (so + nOPN))) nIPC with
          | Except.error e => Except.error e
          | Except.ok outputLayers =>
            Except.ok (savedFields ++
              (((O.drop so).take (min O.length (so + nOPN) - so)).zip
                outputLayers)) := by
  simp only [lin_combine_loop, List.foldl_append, List.foldl_cons,
    List.foldl_nil]

/-- The trailing-batch unfolding when both the earlier batches and the new
chunk succeed. -/
theorem lin_combine_loop_concat_ok (load : H → F) (O I : List H) (M : Mat)
    (nIPC nOPN : Nat) (L : List Nat) (so : Nat) (saved : List (H × F))
    (layers : List F)
    (hL : lin_combine_loop load O I M nIPC nOPN L = Except.ok saved)
    (hchunk : lin_combine_chunk load I
      (M.colSlice so (min O.length (so + nOPN))) nIPC = Except.ok layers) :
    lin_combine_loop load O I M nIPC nOPN (L ++ [so])
      = Except.ok (saved ++
          (((O.drop so).take (min O.length (so + nOPN) - so)).zip layers)) := by
  rw [lin_combine_loop_concat, hL, hchunk]

/-- The output loop over the first `cnt` batches saves, in order, one
(path, field) event per covered output index, with the field the weighted sum
of all loaded inputs. -/
theorem lin_combine_loop_spec (load : H → F) (O I : List H) (M : Mat)
    (nIPC nOPN : Nat) (hIPC : 0 < nIPC) (hOPN : 0 < nOPN)
    (hrows : M.rows = I.length) (hI : 0 < I.length) (hO : O.length ≤ M.cols) :
    ∀ cnt : Nat,
    lin_combine_loop load O I M nIPC nOPN (List.range' 0 cnt nOPN)
      = Except.ok ((List.range' 0 (min O.length (nOPN * cnt))).map (fun k =>
          (O.getD k default,
           ((List.range' 0 I.length).map
             (fun i => M.entry i k • load (I.getD i default))).sum))) := by
  intro cnt
  induction cnt with
  | zero =>
    simp only [Nat.mul_zero, Nat.min_zero, List.range'_zero]
    rfl
  | succ cnt ih =>
    have hconcat : List.range' 0 (cnt + 1) nOPN
        = List.range' 0 cnt nOPN ++ [nOPN * cnt] := by
      have := @List.range'_concat nOPN 0 cnt
      simpa using this
    have hmul : nOPN * (cnt + 1) = nOPN * cnt + nOPN := by ring
    rcases le_or_lt O.length (nOPN * cnt) with hs | hs
    · -- batch beyond the outputs: the column slice is empty
      have heo : min O.length (nOPN * cnt + nOPN) = O.length := by omega
      have hcols : (M.colSlice (nOPN * cnt)
          (min O.length (nOPN * cnt + nOPN))).cols = 0 := by
        simp only [Mat.colSlice, heo]
        omega
      obtain ⟨layers, hlayers, hllen, -⟩ := lin_combine_chunk_spec load I
        (M.colSlice (nOPN * cnt) (min O.length (nOPN * cnt + nOPN))) nIPC
        hIPC (by simpa [Mat.colSlice] using hrows) hI
      rw [hconcat, lin_combine_loop_concat_ok load O I M nIPC nOPN _ _ _ _ ih
        hlayers]
      have hnil : layers = [] := List.length_eq_zero.1 (by rw [hllen, hcols])
      rw [hnil, List.zip_nil_right, List.append_nil]
      have : min O.length (nOPN * (cnt + 1)) = min O.length (nOPN * cnt) := by
        omega
      rw [this]
    · -- a real batch [so, eo)
      have heo : nOPN * cnt < min O.length (nOPN * cnt + nOPN) := by omega
      have heoO : min O.length (nOPN * cnt + nOPN) ≤ O.length :=
        Nat.min_le_left _ _
      have hcols : (M.colSlice (nOPN * cnt)
          (min O.length (nOPN * cnt + nOPN))).cols
          = min O.length (nOPN * cnt + nOPN) - nOPN * cnt := by
        simp only [Mat.colSlice]
        omega
      obtain ⟨layers, hlayers, hllen, hlget⟩ := lin_combine_chunk_spec load I
        (M.colSlice (nOPN * cnt) (min O.length (nOPN * cnt + nOPN))) nIPC
        hIPC (by simpa [Mat.colSlice] using hrows) hI
      rw [hconcat, lin_combine_loop_concat_ok load O I M nIPC nOPN _ _ _ _ ih
        hlayers]
      have hzip : ((O.drop (nOPN * cnt)).take
            (min O.length (nOPN * cnt + nOPN) - nOPN * cnt)).zip layers
          = (List.range' (nOPN * cnt)
              (min O.length (nOPN * cnt + nOPN) - nOPN * cnt)).map (fun k =>
              (O.getD k default,
               ((List.range' 0 I.length).map
                 (fun i => M.entry i k • load (I.getD i default))).sum)) := by
        have hslen : ((O.drop (nOPN * cnt)).take
            (min O.length (nOPN * cnt + nOPN) - nOPN * cnt)).length
            = min O.length (nOPN * cnt + nOPN) - nOPN * cnt := by
          rw [List.length_take, List.length_drop]
          omega
        refine List.ext_getElem ?_ ?_
        · rw [List.length_zip, hslen, hllen, hcols, List.length_map,
            List.length_range']
          omega
        · intro k hk1 hk2
          have hkb : k < min O.length (nOPN * cnt + nOPN) - nOPN * cnt := by
            rw [List.length_zip, hslen, hllen, hcols] at hk1
            omega
          rw [List.getElem_zip, List.getElem_map, List.getElem_range']
          have hOk : nOPN * cnt + k < O.length := by omega
          have hkb1 : k < ((O.drop (nOPN * cnt)).take
              (min O.length (nOPN * cnt + nOPN) - nOPN * cnt)).length := by
            rw [hslen]; exact hkb
          have hkb2 : k < layers.length := by rw [hllen, hcols]; exact hkb
          have h1 : ((O.drop (nOPN * cnt)).take
              (min O.length (nOPN * cnt + nOPN) - nOPN * cnt))[k]
              = O.getD (nOPN * cnt + 1 * k) default := by
            rw [List.getElem_take, List.getElem_drop]
            rw [List.getD_eq_getElem _ _ (by omega : nOPN * cnt + 1 * k < O.length)]
            congr 1
            omega
          have h2 : layers[k]
              = ((List.range' 0 I.length).map
                  (fun i => M.entry i (nOPN * cnt + 1 * k) •
                    load (I.getD i default))).sum := by
            rw [← List.getD_eq_getElem layers default hkb2]
            rw [hlget k (by rw [hcols]; exact hkb)]
            simp only [Mat.colSlice]
            congr 1
            refine List.map_congr_left (fun i _ => ?_)
            congr 2
            omega
          rw [h1, h2]
      rw [hzip]
      have hp : min O.length (nOPN * cnt) = nOPN * cnt := by omega
      have hsplit : List.range' 0 (min O.length (nOPN * cnt))
          ++ List.range' (nOPN * cnt)
            (min O.length (nOPN * cnt + nOPN) - nOPN * cnt)
          = List.range' 0 (min O.length (nOPN * (cnt + 1))) := by
        rw [hp]
        have h3 := List.range'_append 0 (nOPN * cnt)
          (min O.length (nOPN * cnt + nOPN) - nOPN * cnt) 1
        simp only [Nat.one_mul, Nat.zero_add] at h3
        rw [h3]
        congr 1
        omega
      rw [← List.map_append, hsplit]

end LinCombineSpec

section LinCombineTop

variable {H F : Type} [Inhabited H] [Inhabited F] [AddCommMonoid F]
  [Module ℚ F]

/-- `lin_combine` with a save operation, a coefficient matrix whose row count
matches the inputs, and no more output paths than matrix columns: it saves,
in output order, one field per output path, each the weighted sum of all
loaded inputs.  The memory budget must be at least 2 (with budget 1 the
source's `range(0, numOutputFields, numOutputsPerNode)` has step 0 and Python
raises). -/
theorem lin_combine_spec (load : H → F) (O I : List H) (M : Mat)
    (maxFields numProcs : Nat) (hrows : M.rows = I.length)
    (hO : O.length ≤ M.cols) (hI : 0 < I.length) (hmf : 2 ≤ maxFields)
    (hnp : 1 ≤ numProcs) :
    lin_combine true load O I M maxFields numProcs
      = Except.ok ((List.range O.length).map (fun k =>
          (O.getD k default,
           ∑ i ∈ Finset.range I.length,
             M.entry i k • load (I.getD i default)))) := by
  have hIPC : 0 < (if maxFields > numProcs then numProcs
      else max (maxFields - numProcs - 1) 1) := by
    split
    · omega
    · exact Nat.lt_of_lt_of_le Nat.one_pos (le_max_right _ _)
  have hOPN : 0 < maxFields - (if maxFields > numProcs then numProcs
      else max (maxFields - numProcs - 1) 1) := by
    split
    next h => omega
    next h =>
      have h1 : maxFields - numProcs - 1 = 0 := by omega
      rw [h1]
      have h2 : max 0 1 = 1 := rfl
      rw [h2]
      omega
  simp only [lin_combine]
  rw [if_neg (by decide)]
  rw [if_neg (by omega)]
  rw [if_neg (by omega)]
  have hrs : rangeStep 0 O.length (maxFields -
      (if maxFields > numProcs then numProcs
       else max (maxFields - numProcs - 1) 1))
      = List.range' 0 ((O.length + (maxFields -
          (if maxFields > numProcs then numProcs
           else max (maxFields - numProcs - 1) 1)) - 1) /
          (maxFields - (if maxFields > numProcs then numProcs
           else max (maxFields - numProcs - 1) 1)))
        (maxFields - (if maxFields > numProcs then numProcs
         else max (maxFields - numProcs - 1) 1)) := by
    simp only [rangeStep, Nat.sub_zero]
  rw [hrs]
  rw [lin_combine_loop_spec load O I M _ _ hIPC hOPN hrows hI hO _]
  rw [rangeStep_ceil_covers O.length _ hOPN]
  rw [show List.range' 0 O.length = List.range O.length from
    (List.range_eq_range' _).symm]
  refine congrArg Except.ok (List.map_congr_left (fun k _ => ?_))
  rw [sum_map_range' (fun i => M.entry i k • load (I.getD i default))
    I.length 0]
  rw [Nat.zero_add, ← Finset.range_eq_Ico]

end LinCombineTop

section IdiotCheck

variable {H F : Type}

/-- `FieldOperations.idiot_check` (fieldoperations.py lines 51-100).
Python mutation is embedded by state passing: `mul x c` returns the product
together with the state of the `x` operand after the call, and `add x y`
returns the sum together with the states of the left and right operands after
the call (for the aliased `testObj + testObj` the object's state after the
call is taken to be the returned right-operand state).  `copy.deepcopy` is a
value copy.  The checks compare against the fixed tolerance `1e-10` with the
fixed `factor = 2`. -/
def idiot_check (load : H → F) (inner_product : F → F → ℚ)
    (mul : F → ℚ → F × F) (add : F → F → F × F × F)
    (testObj : Option F) (testObjPath : Option H) : Except PyError Unit :=
  let tol : ℚ := 1 / 10 ^ 10
  let testObjOpt : Option F := match testObjPath with
    | some p => some (load p)
    | none => testObj
  match testObjOpt with
  | none => Except.error (PyError.runtimeError
      ("Supply a field object or a path to one for the idiot check"))
  | some testObj =>
    let objCopy := testObj
    let objCopyMag2 := inner_product objCopy objCopy
    let factor : ℚ := 2
    let mulRes := mul testObj factor
    let objMult := mulRes.1
    let testObj1 := mulRes.2
    if |inner_product objMult objMult - objCopyMag2 * factor ^ 2| > tol then
      Except.error (PyError.valueError
        ("Multiplication of snap/mode object failed"))
    else if |inner_product testObj1 testObj1 - objCopyMag2| > tol then
      Except.error (PyError.valueError
        ("Original object modified by multiplication"))
    else
      let addRes := add testObj1 testObj1
      let objAdd := addRes.1
      let testObj2 := addRes.2.2
      if |inner_product objAdd objAdd - objCopyMag2 * 4| > tol then
        Except.error (PyError.valueError
          ("Addition does not give correct result"))
      else if |inner_product testObj2 testObj2 - objCopyMag2| > tol then
        Except.error (PyError.valueError
          ("Original object modified by addition"))
      else
        let mulRes2 := mul testObj2 factor
        let addRes2 := add mulRes2.1 mulRes2.2
        let objAddMult := addRes2.1
        let testObj3 := addRes2.2.2
        if |inner_product objAddMult objAddMult
            - objCopyMag2 * (factor + 1) ^ 2| > tol then
          Except.error (PyError.valueError
            ("Multiplication and addition of snap/mode are inconsistent"))
        else if |inner_product testObj3 testObj3 - objCopyMag2| > tol then
          Except.error (PyError.valueError
            ("Original object modified by combo of mult/add"))
        else Except.ok ()

end IdiotCheck

/-- `FieldOperations.__init__` (lines 22-43): stores the three pluggable
operations (each possibly absent) and the memory budget, which defaults to 2
(with a verbose warning) when not supplied.  Construction itself never
fails. -/
structure FieldOperations (H F : Type) where
  load_field : Option (H → F)
  save_field : Option Unit
  inner_product : Option (F → F → ℚ)
  maxFields : Nat
  verbose : Bool

/-- The constructor: total, with the default budget of 2. -/
def FieldOperations.init {H F : Type} (load_field : Option (H → F))
    (save_field : Option Unit) (inner_product : Option (F → F → ℚ))
    (maxFields : Option Nat) (verbose : Bool) : FieldOperations H F :=
  { load_field := load_field
    save_field := save_field
    inner_product := inner_product
    maxFields := maxFields.getD 2
    verbose := verbose }

section ComputeModes

variable {H F : Type} [Inhabited H] [Inhabited F] [AddCommMonoid F]
  [Module ℚ F]

/-- Validation behavior of `_compute_modes` with a save operation present:
a mode count above the snapshot count or any out-of-range mode number yields
a `ValueError`; otherwise the call reduces to `lin_combine` on the reordered
coefficient columns and formatted mode paths. -/
theorem compute_modes_validation (load : H → F) (modeNumList : List Int)
    (modePath : Int → H) (snapPaths : List H) (M : Mat) (indexFrom : Int)
    (maxFields numProcs : Nat) :
    ((modeNumList.length > snapPaths.length
        ∨ ∃ m ∈ modeNumList, m < indexFrom ∨ (M.cols : Int) ≤ m - indexFrom) →
      ∃ msg, _compute_modes true load modeNumList modePath snapPaths M
          indexFrom maxFields numProcs
        = Except.error (PyError.valueError msg)) ∧
    ((∀ m ∈ modeNumList, indexFrom ≤ m ∧ m - indexFrom < (M.cols : Int)) →
      modeNumList.length ≤ snapPaths.length →
      _compute_modes true load modeNumList modePath snapPaths M indexFrom
          maxFields numProcs
        = lin_combine true load (modeNumList.map modePath) snapPaths
            (Mat.mk M.rows modeNumList.length
              (fun i j => M.entry i ((modeNumList.getD j 0 - indexFrom).toNat)))
            maxFields numProcs) := by
  constructor
  · intro h
    simp only [_compute_modes]
    rw [if_neg (by decide)]
    by_cases hc : modeNumList.length > snapPaths.length
    · rw [if_pos hc]
      exact ⟨_, rfl⟩
    · rw [if_neg hc]
      rcases h with hc' | ⟨m, hm, hbad⟩
      · exact absurd hc' hc
      · split
        next e heq =>
          obtain ⟨a, _, hfa⟩ := List.exists_of_findSome?_eq_some heq
          have he : ∃ msg, e = PyError.valueError msg := by
            by_cases h1 : a < indexFrom
            · rw [if_pos h1] at hfa
              exact ⟨_, (Option.some.inj hfa).symm⟩
            · rw [if_neg h1] at hfa
              by_cases h2 : (M.cols : Int) ≤ a - indexFrom
              · rw [if_pos h2] at hfa
                exact ⟨_, (Option.some.inj hfa).symm⟩
              · rw [if_neg h2] at hfa
                cases hfa
          obtain ⟨msg, rfl⟩ := he
          exact ⟨msg, rfl⟩
        next heq =>
          have hfm := List.findSome?_eq_none.1 heq m hm
          rcases hbad with h1 | h2
          · rw [if_pos h1] at hfm
            cases hfm
          · by_cases h1' : m < indexFrom
            · rw [if_pos h1'] at hfm
              cases hfm
            · rw [if_neg h1', if_pos h2] at hfm
              cases hfm
  · intro hvalid hcount
    simp only [_compute_modes]
    rw [if_neg (by decide), if_neg (by omega)]
    split
    next e heq =>
      obtain ⟨a, ha, hfa⟩ := List.exists_of_findSome?_eq_some heq
      obtain ⟨hge, hlt⟩ := hvalid a ha
      rw [if_neg (by omega), if_neg (by omega)] at hfa
      cases hfa
    next heq => rfl

/-- Claim C6: `_compute_modes` raises an InvalidArgument-kind error
(`ValueError`) when a requested mode number is below `indexFrom`, when a
requested mode number minus `indexFrom` reaches the coefficient matrix's
column count, or when more modes are requested than snapshots supplied;
otherwise these validations pass and the call proceeds to `lin_combine`. -/
theorem c6_compute_modes_validation (H F : Type) [Inhabited H] [Inhabited F]
    [AddCommMonoid F] [Module ℚ F] (load : H → F) (modeNumList : List Int)
    (modePath : Int → H) (snapPaths : List H) (M : Mat) (indexFrom : Int)
    (maxFields numProcs : Nat) :
    ((modeNumList.length > snapPaths.length
        ∨ ∃ m ∈ modeNumList, m < indexFrom ∨ (M.cols : Int) ≤ m - indexFrom) →
      ∃ msg, _compute_modes true load modeNumList modePath snapPaths M
          indexFrom maxFields numProcs
        = Except.error (PyError.valueError msg)) ∧
    ((∀ m ∈ modeNumList, indexFrom ≤ m ∧ m - indexFrom < (M.cols : Int)) →
      modeNumList.length ≤ snapPaths.length →
      _compute_modes true load modeNumList modePath snapPaths M indexFrom
          maxFields numProcs
        = lin_combine true load (modeNumList.map modePath) snapPaths
            (Mat.mk M.rows modeNumList.length
              (fun i j => M.entry i ((modeNumList.getD j 0 - indexFrom).toNat)))
            maxFields numProcs) :=
  compute_modes_validation load modeNumList modePath snapPaths M indexFrom
    maxFields numProcs

/-- Witness for `c6_compute_modes_validation`: requesting mode 0 with
`indexFrom = 1` fails with a `ValueError`. -/
theorem c6_compute_modes_validation_witness :
    ∃ msg, _compute_modes true (fun n : Nat => (n : ℚ)) [0]
        (fun m : Int => m.toNat) [5, 6] (Mat.mk 2 2 (fun _ _ => (1 : ℚ))) 1 2 1
      = Except.error (PyError.valueError msg) :=
  (c6_compute_modes_validation Nat ℚ (fun n => (n : ℚ)) [0]
    (fun m : Int => m.toNat) [5, 6] (Mat.mk 2 2 (fun _ _ => 1)) 1 2 1).1
    (Or.inr ⟨0, by decide, Or.inl (by decide)⟩)

/-- Claim C7: for a valid request, `_compute_modes` writes exactly one output
per requested mode number, at the path formatted from that mode number, in
the requested order, each equal to the linear combination of the loaded
snapshots using coefficient column `modeNum - indexFrom`. -/
theorem c7_compute_modes_outputs (H F : Type) [Inhabited H] [Inhabited F]
    [AddCommMonoid F] [Module ℚ F] (load : H → F) (modeNumList : List Int)
    (modePath : Int → H) (snapPaths : List H) (M : Mat) (indexFrom : Int)
    (maxFields numProcs : Nat)
    (hvalid : ∀ m ∈ modeNumList,
      indexFrom ≤ m ∧ m - indexFrom < (M.cols : Int))
    (hcount : modeNumList.length ≤ snapPaths.length)
    (hrows : M.rows = snapPaths.length) (hsnaps : 0 < snapPaths.length)
    (hmf : 2 ≤ maxFields) (hnp : 1 ≤ numProcs) :
    _compute_modes true load modeNumList modePath snapPaths M indexFrom
        maxFields numProcs
      = Except.ok ((List.range modeNumList.length).map (fun k =>
          (modePath (modeNumList.getD k 0),
           ∑ i ∈ Finset.range snapPaths.length,
             M.entry i ((modeNumList.getD k 0 - indexFrom).toNat) •
               load (snapPaths.getD i default)))) := by
  rw [(compute_modes_validation load modeNumList modePath snapPaths M
    indexFrom maxFields numProcs).2 hvalid hcount]
  rw [lin_combine_spec load (modeNumList.map modePath) snapPaths
    (Mat.mk M.rows modeNumList.length
      (fun i j => M.entry i ((modeNumList.getD j 0 - indexFrom).toNat)))
    maxFields numProcs hrows (by rw [List.length_map]) hsnaps hmf hnp]
  rw [List.length_map]
  refine congrArg Except.ok (List.map_congr_left (fun k hk => ?_))
  have hk' : k < modeNumList.length := List.mem_range.1 hk
  have hpath : (modeNumList.map modePath).getD k default
      = modePath (modeNumList.getD k 0) := by
    rw [List.getD_eq_getElem _ _ (by rw [List.length_map]; exact hk'),
      List.getElem_map, List.getD_eq_getElem _ _ hk']
  rw [hpath]

/-- Witness for `c7_compute_modes_outputs`: modes [3, 1] from three
snapshots with `indexFrom = 1`. -/
theorem c7_compute_modes_outputs_witness :
    _compute_modes true (fun n : Nat => (n : ℚ)) [3, 1]
        (fun m : Int => (100 + m.toNat : Nat)) [5, 6, 7]
        (Mat.mk 3 3 (fun _ _ => (1 : ℚ))) 1 4 1
      = Except.ok ((List.range ([3, 1] : List Int).length).map (fun k =>
          ((fun m : Int => (100 + m.toNat : Nat))
            (([3, 1] : List Int).getD k 0),
           ∑ i ∈ Finset.range ([5, 6, 7] : List Nat).length,
             (Mat.mk 3 3 (fun _ _ => (1 : ℚ))).entry i
                ((([3, 1] : List Int).getD k 0 - 1).toNat) •
               ((fun n : Nat => (n : ℚ))
                 (([5, 6, 7] : List Nat).getD i default))))) :=
  c7_compute_modes_outputs Nat ℚ (fun n => (n : ℚ)) [3, 1]
    (fun m : Int => (100 + m.toNat : Nat)) [5, 6, 7]
    (Mat.mk 3 3 (fun _ _ => 1)) 1 4 1 (by decide) (by decide) rfl
    (by decide) (by decide) (by decide)

end ComputeModes

/-- Claim C2: with a save operation, a coefficient matrix whose row count
equals the number of input handles, and no more output handles than matrix
columns, `lin_combine` saves to each output handle the weighted sum over i
of `load(I[i])` scaled by column k of the matrix (exact equality in the
embedding). -/
theorem c2_lin_combine_correctness (H F : Type) [Inhabited H] [Inhabited F]
    [AddCommMonoid F] [Module ℚ F] (load : H → F) (O I : List H) (M : Mat)
    (maxFields numProcs : Nat) (hrows : M.rows = I.length)
    (hO : O.length ≤ M.cols) (hI : 0 < I.length) (hmf : 2 ≤ maxFields)
    (hnp : 1 ≤ numProcs) :
    lin_combine true load O I M maxFields numProcs
      = Except.ok ((List.range O.length).map (fun k =>
          (O.getD k default,
           ∑ i ∈ Finset.range I.length,
             M.entry i k • load (I.getD i default)))) :=
  lin_combine_spec load O I M maxFields numProcs hrows hO hI hmf hnp

/-- Witness for `c2_lin_combine_correctness` at a concrete instance. -/
theorem c2_lin_combine_correctness_witness :
    ((Mat.mk 2 2 (fun _ _ => (1 : ℚ))).rows = ([10, 20] : List Nat).length
      ∧ ([0, 1] : List Nat).length ≤ (Mat.mk 2 2 (fun _ _ => (1 : ℚ))).cols
      ∧ 0 < ([10, 20] : List Nat).length ∧ 2 ≤ 2 ∧ 1 ≤ 1) ∧
    lin_combine true (fun n : Nat => (n : ℚ)) [0, 1] [10, 20]
        (Mat.mk 2 2 (fun _ _ => (1 : ℚ))) 2 1
      = Except.ok ((List.range ([0, 1] : List Nat).length).map (fun k =>
          ((([0, 1] : List Nat)).getD k default,
           ∑ i ∈ Finset.range ([10, 20] : List Nat).length,
             (Mat.mk 2 2 (fun _ _ => (1 : ℚ))).entry i k •
               ((fun n : Nat => (n : ℚ))
                 (([10, 20] : List Nat).getD i default))))) :=
  ⟨⟨rfl, by decide, by decide, by decide, by decide⟩,
   c2_lin_combine_correctness Nat ℚ (fun n => (n : ℚ)) [0, 1] [10, 20]
     (Mat.mk 2 2 (fun _ _ => 1)) 2 1 rfl (by decide) (by decide) (by decide)
     (by decide)⟩

/-- Claim C5, failing evaluation: with one input handle but a two-row
coefficient matrix (fewer handles than rows, which lines 524-525 of the
source merely warn about), the call does not complete: `lin_combine_chunk`'s
`assert fieldCoeffMat.shape[0] == numInputs` fails, raising
`AssertionError`. -/
theorem c5_fewer_inputs_asserts :
    lin_combine true (fun n : Nat => (n : ℚ)) [0] [1]
        (Mat.mk 2 1 (fun _ _ => (1 : ℚ))) 2 1
      = Except.error PyError.assertionError := rfl

/-- Claim C9: a facade constructed without a save operation is built
successfully; `lin_combine` then fails at first use with the
operation-undefined error, but `_compute_modes` raises a `NameError`
(the source's line 454 raises the unqualified, unbound name
`UndefinedError`), not an operation-undefined error.  Both fail before any
load or save: the result is independent of every other argument. -/
theorem c9_missing_save_errors (H F : Type) [Inhabited H] [Inhabited F]
    [AddCommMonoid F] [Module ℚ F] (load : H → F) (O I : List H) (M : Mat)
    (modeNumList : List Int) (modePath : Int → H) (indexFrom : Int)
    (maxFields numProcs : Nat) (loadOpt : Option (H → F))
    (ipOpt : Option (F → F → ℚ)) (mfOpt : Option Nat) (verbose : Bool) :
    (FieldOperations.init loadOpt none ipOpt mfOpt verbose).save_field
        = none ∧
    lin_combine false load O I M maxFields numProcs
      = Except.error (PyError.undefinedError ("save_field is undefined")) ∧
    _compute_modes false load modeNumList modePath I M indexFrom maxFields
        numProcs
      = Except.error (PyError.nameError ("UndefinedError")) :=
  ⟨rfl, rfl, rfl⟩

/-- Claim C10: `idiot_check` with neither a test object nor a path raises the
`RuntimeError` immediately; the result does not depend on the supplied load,
inner product or arithmetic, so no law check or inner-product evaluation can
have occurred. -/
theorem c10_idiot_check_requires_object (H F : Type) (load : H → F)
    (inner_product : F → F → ℚ) (mul : F → ℚ → F × F)
    (add : F → F → F × F × F) :
    idiot_check load inner_product mul add none none
      = Except.error (PyError.runtimeError
          ("Supply a field object or a path to one for the idiot check")) :=
  rfl

/-- Claim C8: `idiot_check` completes without raising when every law the
source checks holds within the fixed tolerance `1e-10` (as it does for
genuine linear, non-mutating field arithmetic), and when a law is violated
beyond the tolerance it raises the `ValueError` naming exactly the first
violated law.  Mutation is observed through the returned operand states of
`mul` and `add`. -/
theorem c8_idiot_check_laws (H F : Type) (load : H → F) (ip : F → F → ℚ)
    (mul : F → ℚ → F × F) (add : F → F → F × F × F) (x : F) :
    ((|ip (mul x 2).1 (mul x 2).1 - ip x x * 2 ^ 2| ≤ 1 / 10 ^ 10) →
     (|ip (mul x 2).2 (mul x 2).2 - ip x x| ≤ 1 / 10 ^ 10) →
     (|ip (add (mul x 2).2 (mul x 2).2).1 (add (mul x 2).2 (mul x 2).2).1
        - ip x x * 4| ≤ 1 / 10 ^ 10) →
     (|ip (add (mul x 2).2 (mul x 2).2).2.2 (add (mul x 2).2 (mul x 2).2).2.2
        - ip x x| ≤ 1 / 10 ^ 10) →
     (|ip (add (mul (add (mul x 2).2 (mul x 2).2).2.2 2).1
            (mul (add (mul x 2).2 (mul x 2).2).2.2 2).2).1
          (add (mul (add (mul x 2).2 (mul x 2).2).2.2 2).1
            (mul (add (mul x 2).2 (mul x 2).2).2.2 2).2).1
        - ip x x * (2 + 1) ^ 2| ≤ 1 / 10 ^ 10) →
     (|ip (add (mul (add (mul x 2).2 (mul x 2).2).2.2 2).1
            (mul (add (mul x 2).2 (mul x 2).2).2.2 2).2).2.2
          (add (mul (add (mul x 2).2 (mul x 2).2).2.2 2).1
            (mul (add (mul x 2).2 (mul x 2).2).2.2 2).2).2.2
        - ip x x| ≤ 1 / 10 ^ 10) →
     idiot_check load ip mul add (some x) none = Except.ok ()) ∧
    ((|ip (mul x 2).1 (mul x 2).1 - ip x x * 2 ^ 2| > 1 / 10 ^ 10) →
     idiot_check load ip mul add (some x) none
       = Except.error (PyError.valueError
           ("Multiplication of snap/mode object failed"))) ∧
    ((|ip (mul x 2).1 (mul x 2).1 - ip x x * 2 ^ 2| ≤ 1 / 10 ^ 10) →
     (|ip (mul x 2).2 (mul x 2).2 - ip x x| > 1 / 10 ^ 10) →
     idiot_check load ip mul add (some x) none
       = Except.error (PyError.valueError
           ("Original object modified by multiplication"))) ∧
    ((|ip (mul x 2).1 (mul x 2).1 - ip x x * 2 ^ 2| ≤ 1 / 10 ^ 10) →
     (|ip (mul x 2).2 (mul x 2).2 - ip x x| ≤ 1 / 10 ^ 10) →
     (|ip (add (mul x 2).2 (mul x 2).2).1 (add (mul x 2).2 (mul x 2).2).1
        - ip x x * 4| > 1 / 10 ^ 10) →
     idiot_check load ip mul add (some x) none
       = Except.error (PyError.valueError
           ("Addition does not give correct result"))) ∧
    ((|ip (mul x 2).1 (mul x 2).1 - ip x x * 2 ^ 2| ≤ 1 / 10 ^ 10) →
     (|ip (mul x 2).2 (mul x 2).2 - ip x x| ≤ 1 / 10 ^ 10) →
     (|ip (add (mul x 2).2 (mul x 2).2).1 (add (mul x 2).2 (mul x 2).2).1
        - ip x x * 4| ≤ 1 / 10 ^ 10) →
     (|ip (add (mul x 2).2 (mul x 2).2).2.2 (add (mul x 2).2 (mul x 2).2).2.2
        - ip x x| > 1 / 10 ^ 10) →
     idiot_check load ip mul add (some x) none
       = Except.error (PyError.valueError
           ("Original object modified by addition"))) ∧
    ((|ip (mul x 2).1 (mul x 2).1 - ip x x * 2 ^ 2| ≤ 1 / 10 ^ 10) →
     (|ip (mul x 2).2 (mul x 2).2 - ip x x| ≤ 1 / 10 ^ 10) →
     (|ip (add (mul x 2).2 (mul x 2).2).1 (add (mul x 2).2 (mul x 2).2).1
        - ip x x * 4| ≤ 1 / 10 ^ 10) →
     (|ip (add (mul x 2).2 (mul x 2).2).2.2 (add (mul x 2).2 (mul x 2).2).2.2
        - ip x x| ≤ 1 / 10 ^ 10) →
     (|ip (add (mul (add (mul x 2).2 (mul x 2).2).2.2 2).1
            (mul (add (mul x 2).2 (mul x 2).2).2.2 2).2).1
          (add (mul (add (mul x 2).2 (mul x 2).2).2.2 2).1
            (mul (add (mul x 2).2 (mul x 2).2).2.2 2).2).1
        - ip x x * (2 + 1) ^ 2| > 1 / 10 ^ 10) →
     idiot_check load ip mul add (some x) none
       = Except.error (PyError.valueError
           ("Multiplication and addition of snap/mode are inconsistent"))) ∧
    ((|ip (mul x 2).1 (mul x 2).1 - ip x x * 2 ^ 2| ≤ 1 / 10 ^ 10) →
     (|ip (mul x 2).2 (mul x 2).2 - ip x x| ≤ 1 / 10 ^ 10) →
     (|ip (add (mul x 2).2 (mul x 2).2).1 (add (mul x 2).2 (mul x 2).2).1
        - ip x x * 4| ≤ 1 / 10 ^ 10) →
     (|ip (add (mul x 2).2 (mul x 2).2).2.2 (add (mul x 2).2 (mul x 2).2).2.2
        - ip x x| ≤ 1 / 10 ^ 10) →
     (|ip (add (mul (add (mul x 2).2 (mul x 2).2).2.2 2).1
            (mul (add (mul x 2).2 (mul x 2).2).2.2 2).2).1
          (add (mul (add (mul x 2).2 (mul x 2).2).2.2 2).1
            (mul (add (mul x 2).2 (mul x 2).2).2.2 2).2).1
        - ip x x * (2 + 1) ^ 2| ≤ 1 / 10 ^ 10) →
     (|ip (add (mul (add (mul x 2).2 (mul x 2).2).2.2 2).1
            (mul (add (mul x 2).2 (mul x 2).2).2.2 2).2).2.2
          (add (mul (add (mul x 2).2 (mul x 2).2).2.2 2).1
            (mul (add (mul x 2).2 (mul x 2).2).2.2 2).2).2.2
        - ip x x| > 1 / 10 ^ 10) →
     idiot_check load ip mul add (some x) none
       = Except.error (PyError.valueError
           ("Original object modified by combo of mult/add"))) := by
  refine ⟨?_, ?_, ?_, ?_, ?_, ?_, ?_⟩
  · intro h1 h2 h3 h4 h5 h6
    simp only [idiot_check]
    rw [if_neg (not_lt.2 h1), if_neg (not_lt.2 h2), if_neg (not_lt.2 h3),
      if_neg (not_lt.2 h4), if_neg (not_lt.2 h5), if_neg (not_lt.2 h6)]
  · intro h1
    simp only [idiot_check]
    rw [if_pos h1]
  · intro h1 h2
    simp only [idiot_check]
    rw [if_neg (not_lt.2 h1), if_pos h2]
  · intro h1 h2 h3
    simp only [idiot_check]
    rw [if_neg (not_lt.2 h1), if_neg (not_lt.2 h2), if_pos h3]
  · intro h1 h2 h3 h4
    simp only [idiot_check]
    rw [if_neg (not_lt.2 h1), if_neg (not_lt.2 h2), if_neg (not_lt.2 h3),
      if_pos h4]
  · intro h1 h2 h3 h4 h5
    simp only [idiot_check]
    rw [if_neg (not_lt.2 h1), if_neg (not_lt.2 h2), if_neg (not_lt.2 h3),
      if_neg (not_lt.2 h4), if_pos h5]
  · intro h1 h2 h3 h4 h5 h6
    simp only [idiot_check]
    rw [if_neg (not_lt.2 h1), if_neg (not_lt.2 h2), if_neg (not_lt.2 h3),
      if_neg (not_lt.2 h4), if_neg (not_lt.2 h5), if_pos h6]

/-- Witness for `c8_idiot_check_laws`: proper field arithmetic over ℚ passes,
and a multiplication that fails to scale raises the law-naming error. -/
theorem c8_idiot_check_laws_witness :
    idiot_check (fun n : Nat => (n : ℚ)) (fun a b : ℚ => a * b)
        (fun y c => (c * y, y)) (fun y z => (y + z, y, z)) (some 1) none
      = Except.ok () ∧
    idiot_check (fun n : Nat => (n : ℚ)) (fun a b : ℚ => a * b)
        (fun y _ => (y, y)) (fun y z => (y + z, y, z)) (some 1) none
      = Except.error (PyError.valueError
          ("Multiplication of snap/mode object failed")) :=
  ⟨(c8_idiot_check_laws Nat ℚ (fun n => (n : ℚ)) (fun a b => a * b)
      (fun y c => (c * y, y)) (fun y z => (y + z, y, z)) 1).1
      (by norm_num) (by norm_num) (by norm_num) (by norm_num) (by norm_num)
      (by norm_num),
   (c8_idiot_check_laws Nat ℚ (fun n => (n : ℚ)) (fun a b => a * b)
      (fun y _ => (y, y)) (fun y z => (y + z, y, z)) 1).2.1 (by norm_num)⟩

/-- Claim C3, counterexample: with the bilinear but non-symmetric form
`ip (a1, a2) (b1, b2) = a1 * b2`, the symmetric engine (which mirrors the
upper triangle) disagrees below the diagonal with `compute_inner_product_mat`
applied to the pair (H, H), which recomputes `ip(load(H[i]), load(H[j]))`
there. -/
theorem c3_counterexample :
    ∃ M : Mat,
      compute_symmetric_inner_product_mat (fun a b : ℚ × ℚ => a.1 * b.2)
        (fun n : Nat => ((n : ℚ), 1)) [0, 1] 2 = Except.ok M ∧
      M.entry 1 0 ≠ (compute_inner_product_mat (fun a b : ℚ × ℚ => a.1 * b.2)
        (fun n : Nat => ((n : ℚ), 1)) [0, 1] [0, 1] 2).entry 1 0 := by
  obtain ⟨M, hM, -, -, hent⟩ := compute_symmetric_inner_product_mat_spec
    (fun a b : ℚ × ℚ => a.1 * b.2) (fun n : Nat => ((n : ℚ), 1)) [0, 1] 2
  refine ⟨M, hM, ?_⟩
  rw [hent 1 0 (by decide) (by decide), if_neg (by decide)]
  rw [(compute_inner_product_mat_spec (fun a b : ℚ × ℚ => a.1 * b.2)
    (fun n : Nat => ((n : ℚ), 1)) [0, 1] [0, 1] 2).2.2 1 0 (by decide)
    (by decide), if_neg (by decide)]
  norm_num
